import Mathlib

/-!
Verification development for the go-testdeep core: a shallow embedding of
the total-order comparator (`helpers/tdutil/sort.go`), the structured error
renderer (`internal/ctxerr` `Error.Append`), and the `Shallow`, `Tag` and
`Delay` operators, together with theorems about them.

Machine values (`reflect.Value`) are modelled by the inductive `RValue`;
reference kinds (pointer, slice, map, ...) carry an abstract address into an
explicit finite `Heap`, so that cyclic data structures are representable.
Go `float64` values are modelled exactly: NaN and the two infinities are
separate constructors and finite floats are rationals.
-/

set_option maxHeartbeats 1600000

namespace GoTestdeep

/-- Model of a Go `float64`: NaN, the infinities, and finite values
(modelled exactly as rationals; the ordering facts used by the comparator
only involve `<` on finite values). -/
inductive GoFloat : Type where
  | nan : GoFloat
  | negInf : GoFloat
  | posInf : GoFloat
  | val : ℚ → GoFloat
deriving DecidableEq

/-- `math.IsNaN`. -/
def GoFloat.isNaN : GoFloat → Bool
  | .nan => true
  | _ => false

/-- IEEE `<` on `float64`: any comparison involving NaN is false. -/
def GoFloat.flt : GoFloat → GoFloat → Bool
  | .nan, _ => false
  | _, .nan => false
  | .negInf, .negInf => false
  | .negInf, _ => true
  | _, .negInf => false
  | .posInf, _ => false
  | .val _, .posInf => true
  | .val a, .val b => decide (a < b)

/-- The `reflect.Kind` enumeration (the kinds the comparator handles;
the distinct integer/unsigned/float/complex widths are carried in the type
name instead). -/
inductive RKind : Type where
  | invalid
  | bool
  | int
  | uint
  | float
  | complex
  | string
  | array
  | slice
  | interface
  | struct
  | ptr
  | map
  | func
  | chan
  | unsafePointer
deriving DecidableEq

/-- `reflect.Kind.String()`. -/
def RKind.kindString : RKind → String
  | .invalid => "invalid"
  | .bool => "bool"
  | .int => "int"
  | .uint => "uint"
  | .float => "float64"
  | .complex => "complex128"
  | .string => "string"
  | .array => "array"
  | .slice => "slice"
  | .interface => "interface"
  | .struct => "struct"
  | .ptr => "ptr"
  | .map => "map"
  | .func => "func"
  | .chan => "chan"
  | .unsafePointer => "unsafe.Pointer"

/-- Model of a `reflect.Value`.  Every valid value carries its type name
(`Type().String()`); two values have the same Go type iff they agree on
kind and type name.  Reference kinds carry an address (`0` models a nil
pointer); slice contents and pointees live in a `Heap`.  A string carries
the address of its backing storage (`StringHeader.Data`) next to its
contents, so sub-views sharing storage are representable.  Map contents are
not modelled because no operation in scope reads them (the comparator uses
only a map's length and address). -/
inductive RValue : Type where
  | invalid : RValue
  | bool (ty : String) (b : Bool) : RValue
  | int (ty : String) (n : Int) : RValue
  | uint (ty : String) (n : Nat) : RValue
  | float (ty : String) (x : GoFloat) : RValue
  | complex (ty : String) (re im : GoFloat) : RValue
  | str (ty : String) (dataPtr : Nat) (s : String) : RValue
  | array (ty : String) (elems : List RValue) : RValue
  | slice (ty : String) (addr len : Nat) : RValue
  | iface (ty : String) (elem : Option RValue) : RValue
  | struct (ty : String) (fields : List RValue) : RValue
  | ptr (ty : String) (addr : Nat) : RValue
  | map (ty : String) (addr len : Nat) : RValue
  | func (ty : String) (addr : Nat) : RValue
  | chan (ty : String) (addr : Nat) : RValue
  | unsafePointer (ty : String) (addr : Nat) : RValue

/-- `reflect.Value.Kind()`. -/
def RValue.kind : RValue → RKind
  | .invalid => .invalid
  | .bool _ _ => .bool
  | .int _ _ => .int
  | .uint _ _ => .uint
  | .float _ _ => .float
  | .complex _ _ _ => .complex
  | .str _ _ _ => .string
  | .array _ _ => .array
  | .slice _ _ _ => .slice
  | .iface _ _ => .interface
  | .struct _ _ => .struct
  | .ptr _ _ => .ptr
  | .map _ _ _ => .map
  | .func _ _ => .func
  | .chan _ _ => .chan
  | .unsafePointer _ _ => .unsafePointer

/-- `reflect.Value.IsValid()`. -/
def RValue.isValid : RValue → Bool
  | .invalid => false
  | _ => true

/-- `reflect.Value.Type().String()` (empty for an invalid value, on which
the code never calls it). -/
def RValue.tyName : RValue → String
  | .invalid => ""
  | .bool ty _ => ty
  | .int ty _ => ty
  | .uint ty _ => ty
  | .float ty _ => ty
  | .complex ty _ _ => ty
  | .str ty _ _ => ty
  | .array ty _ => ty
  | .slice ty _ _ => ty
  | .iface ty _ => ty
  | .struct ty _ => ty
  | .ptr ty _ => ty
  | .map ty _ _ => ty
  | .func ty _ => ty
  | .chan ty _ => ty
  | .unsafePointer ty _ => ty

/-- Go `<` on strings: lexicographic on the code sequence (UTF-8 byte
order and code-point order coincide). -/
def strLtChars : List Char → List Char → Bool
  | [], [] => false
  | [], _ :: _ => true
  | _ :: _, [] => false
  | a :: as, b :: bs =>
    if a.toNat < b.toNat then true
    else if b.toNat < a.toNat then false
    else strLtChars as bs

/-- Go `<` on strings, see `strLtChars`. -/
def strLt (a b : String) : Bool := strLtChars a.data b.data

/-- Go type identity (`a.Type() != b.Type()` in the source): same kind and
same type name. -/
def RValue.sameType (a b : RValue) : Bool :=
  a.kind == b.kind && a.tyName == b.tyName

/-- `reflect.Value.Pointer()` for the kinds that support it (chan, func,
map, ptr, slice, unsafe pointer); `0` elsewhere. -/
def RValue.goPointer : RValue → Nat
  | .slice _ addr _ => addr
  | .ptr _ addr => addr
  | .map _ addr _ => addr
  | .func _ addr => addr
  | .chan _ addr => addr
  | .unsafePointer _ addr => addr
  | _ => 0

/-- The Go memory the modelled values refer to: backing arrays of slices
and pointees of pointers, keyed by address. -/
structure Heap : Type where
  arrs : List (Nat × List RValue)
  ptrs : List (Nat × RValue)

/-- Backing array of a slice (empty for an unknown address, which a
well-formed Go value never produces). -/
def Heap.lookupArr (h : Heap) (addr : Nat) : List RValue :=
  ((h.arrs.lookup addr).getD [])

/-- Pointee of a non-nil pointer (invalid for an unknown address, which a
well-formed Go value never produces). -/
def Heap.lookupPtr (h : Heap) (addr : Nat) : RValue :=
  ((h.ptrs.lookup addr).getD .invalid)

/-- The visited-pair set threaded through one comparison: ordered pairs of
identities already being compared. -/
abbrev VisitedL : Type := List (Nat × Nat)

/-- Identity used by the visited-pair guard: the address of a pointer, map
or slice.  Interface values are modelled inline (a Go cycle always passes
through a pointer, map or slice), and other kinds are never recorded. -/
def recordIdent : RValue → Option Nat
  | .ptr _ addr => some addr
  | .map _ addr _ => some addr
  | .slice _ addr _ => some addr
  | _ => none

/-- Modelled from the spec: `visited.Visited.Record` of the
`internal/visited` package (not under `src/`).  Per spec section 4.1 and
4.5, before descending into a pointer/map/slice pair the pair of identities
is recorded in the per-call visited set; the function reports whether the
pair was already present.  Other kinds are left unrecorded. -/
def visitedRecord (v : VisitedL) (a b : RValue) : Bool × VisitedL :=
  match recordIdent a, recordIdent b with
  | some ia, some ib =>
    if (ia, ib) ∈ v then (true, v) else (false, (ia, ib) :: v)
  | _, _ => (false, v)

/-- `cmpRet` from `sort.go`. -/
def cmpRet (less gt : Bool) : Int :=
  if less then -1 else if gt then 1 else 0

/-- `cmpFloat` from `sort.go`: NaN sorts below everything (including
another NaN, since the first operand is tested first). -/
def cmpFloat (a b : GoFloat) : Int :=
  if a.isNaN then -1
  else if b.isNaN then 1
  else cmpRet (a.flt b) (b.flt a)

/-- One `if r := cmp(v, ...); r != 0 { return r }` loop from `sort.go`,
abstracted over the comparison of a single pair: compare the pairs in
order, stopping at the first nonzero result, threading the visited set. -/
def cmpList (step : VisitedL → RValue → RValue → Option (Int × VisitedL)) :
    List (RValue × RValue) → VisitedL → Option (Int × VisitedL)
  | [], v => some (0, v)
  | p :: rest, v =>
    match step v p.1 p.2 with
    | none => none
    | some (r, v') => if r = 0 then cmpList step rest v' else some (r, v')

/-- The body of `cmp` from `sort.go`, with the recursive call abstracted as
`step` (the fuel-indexed `cmp` below ties the knot): validity, type
comparison, the visited-pair guard, then the kind switch.  The final
catch-all returns `none`, modelling the `panic` of the source's `default`
branch; it is unreachable for same-type operands. -/
def cmpBody (step : VisitedL → RValue → RValue → Option (Int × VisitedL))
    (h : Heap) (v : VisitedL) (a b : RValue) : Option (Int × VisitedL) :=
  if !a.isValid then
    (if !b.isValid then some (0, v) else some (-1, v))
  else if !b.isValid then some (1, v)
  else if !(a.sameType b) then
    some (cmpRet (strLt a.tyName b.tyName) (strLt b.tyName a.tyName), v)
  else
    match visitedRecord v a b with
    | (true, v') => some (0, v')
    | (false, v') =>
      match a, b with
      | .bool _ ab, .bool _ bb =>
        some ((if ab then (if bb then 0 else 1) else (if bb then -1 else 0) : Int), v')
      | .int _ na, .int _ nb =>
        some (cmpRet (decide (na < nb)) (decide (nb < na)), v')
      | .uint _ na, .uint _ nb =>
        some (cmpRet (decide (na < nb)) (decide (nb < na)), v')
      | .float _ fa, .float _ fb =>
        some (cmpFloat fa fb, v')
      | .complex _ ra ia, .complex _ rb ib =>
        let r := cmpFloat ra rb
        if r ≠ 0 then some (r, v') else some (cmpFloat ia ib, v')
      | .str _ _ sa, .str _ _ sb =>
        some (cmpRet (strLt sa sb) (strLt sb sa), v')
      | .array _ ea, .array _ eb =>
        cmpList step (ea.zip eb) v'
      | .slice _ aa la, .slice _ ab lb =>
        match cmpList step
            (((h.lookupArr aa).take la).zip ((h.lookupArr ab).take lb)) v' with
        | none => none
        | some (r, v'') =>
          if r ≠ 0 then some (r, v'')
          else some (cmpRet (decide (la < lb)) (decide (lb < la)), v'')
      | .iface _ oa, .iface _ ob =>
        match oa, ob with
        | none, none => some (0, v')
        | none, some _ => some (-1, v')
        | some _, none => some (1, v')
        | some xa, some xb => step v' xa xb
      | .struct _ fa, .struct _ fb =>
        cmpList step (fa.zip fb) v'
      | .ptr _ pa, .ptr _ pb =>
        if pa = pb then some (0, v')
        else if pa = 0 then some (-1, v')
        else if pb = 0 then some (1, v')
        else step v' (h.lookupPtr pa) (h.lookupPtr pb)
      | .map _ ma la, .map _ mb lb =>
        if la ≠ lb then some (cmpRet (decide (la < lb)) (decide (lb < la)), v')
        else some (cmpRet (decide (ma < mb)) (decide (mb < ma)), v')
      | .func _ pa, .func _ pb =>
        some (cmpRet (decide (pa < pb)) (decide (pb < pa)), v')
      | .chan _ pa, .chan _ pb =>
        some (cmpRet (decide (pa < pb)) (decide (pb < pa)), v')
      | .unsafePointer _ pa, .unsafePointer _ pb =>
        some (cmpRet (decide (pa < pb)) (decide (pb < pa)), v')
      | _, _ => none

/-- `cmp` from `sort.go`, fuel-indexed (`none` means the fuel ran out; the
termination theorem shows enough fuel always exists).  Returns the result
together with the updated visited set (the Go set is a mutable map). -/
def cmp : Nat → Heap → VisitedL → RValue → RValue → Option (Int × VisitedL)
  | 0, _, _, _, _ => none
  | fuel+1, h, v, a, b => cmpBody (cmp fuel h) h v a b

end GoTestdeep

namespace GoTestdeep

/-! ## The structured error chain (`internal/ctxerr`, `Error` and `Error.Append`) -/

/-- Modelled from the spec: the `location.Location` of the
`internal/location` package (not under `src/`).  Only the three features
`Error.Append` consumes are modelled: `IsInitialized()`, the `BehindCmp`
flag, and `String()`. -/
structure Location : Type where
  initialized : Bool
  behindCmp : Bool
  render : String
deriving DecidableEq

/-- Which sentinel error a node is (the source distinguishes the package
variables `BooleanError` and `ErrTooManyErrors` by pointer identity). -/
inductive Sentinel : Type where
  | normal
  | booleanError
  | tooManyErrors
deriving DecidableEq

/-- The scalar payload of an error node.  `ctxPath` models
`Context.Path.String()` (the rendered path of the context the error carries),
and `gotStr`/`expectedStr` model `util.ToString(Got)`/`util.ToString(Expected)`
(the `util` package is external to the scope).  `summary` models the
`ErrorSummary.AppendSummary` of an attached summary: the text it writes for
a given line prefix. -/
structure ErrCore : Type where
  sentinel : Sentinel
  ctxPath : String
  Message : String
  gotStr : String
  expectedStr : String
  summary : Option (String → String)
  Location : Location

/-- `ctxerr.Error`: an error node with its optional causal `Origin` and its
optional `Next` sibling. -/
inductive Error : Type where
  | mk (core : ErrCore) (Origin : Option Error) (Next : Option Error)

/-- Field accessor. -/
def Error.core : Error → ErrCore
  | .mk c _ _ => c

/-- Field accessor. -/
def Error.Origin : Error → Option Error
  | .mk _ o _ => o

/-- Field accessor. -/
def Error.Next : Error → Option Error
  | .mk _ _ n => n

/-- `Location` of a node. -/
def Error.Location (e : Error) : Location := e.core.Location

/-- Color escape sequences (the `color` package is an external collaborator;
with coloring disabled, as in `color.Init()`'s default, all of them are
empty strings). -/
def colorTitleOn : String := ""

/-- See `colorTitleOn`. -/
def colorTitleOff : String := ""

/-- See `colorTitleOn`. -/
def colorBadOnBold : String := ""

/-- See `colorTitleOn`. -/
def colorBadOn : String := ""

/-- See `colorTitleOn`. -/
def colorBadOff : String := ""

/-- See `colorTitleOn`. -/
def colorOKOnBold : String := ""

/-- See `colorTitleOn`. -/
def colorOKOn : String := ""

/-- See `colorTitleOn`. -/
def colorOKOff : String := ""

/-- Character-level worker for `indentStringIn`. -/
def indentChars (indent : List Char) : List Char → List Char
  | [] => []
  | c :: cs =>
    if c = '\n' then '\n' :: (indent ++ indentChars indent cs)
    else c :: indentChars indent cs

/-- Modelled from the spec: `util.IndentStringIn` of the external `util`
package: writes the string with every embedded newline followed by the
indentation. -/
def indentStringIn (s indent : String) : String :=
  String.mk (indentChars indent.data s.data)

/-- `strings.Index(msg, "%%")` followed by the two slices: the text before
the first `%%` marker and the text after it, or `none` when the marker does
not occur. -/
def splitFirstMarker : List Char → Option (List Char × List Char)
  | [] => none
  | '%' :: '%' :: rest => some ([], rest)
  | c :: cs => (splitFirstMarker cs).map (fun p => (c :: p.1, p.2))

/-- The message/path rendering of `Error.Append`: if the message contains
the marker `%%`, the path is substituted at the first marker; otherwise the
path is written, then `": "`, then the message. -/
def substPath (msg path : String) : String :=
  match splitFirstMarker msg.data with
  | none => path ++ ": " ++ msg
  | some p => String.mk p.1 ++ path ++ String.mk p.2

/-- The straight-line body of `Error.Append` (all the buffer writes), with
the recursively rendered origin text and the next sibling's location and
rendered text passed in: the source's sequence of writes on one node. -/
def appendAssemble (core : ErrCore) (pfx : String)
    (originText : Option String) (nextInfo : Option (Location × String)) : String :=
  if core.sentinel = .booleanError then ""
  else if core.sentinel = .tooManyErrors then
    pfx ++ colorTitleOn ++ core.Message ++ colorTitleOff
  else
    pfx ++ colorTitleOn ++ substPath core.Message core.ctxPath ++ colorTitleOff
    ++ (match core.summary with
        | some f => "\n" ++ f (pfx ++ "\t")
        | none =>
          "\n" ++ pfx ++ colorBadOnBold ++ "\t     got: " ++ colorBadOn
            ++ indentStringIn core.gotStr (pfx ++ "\t          ") ++ colorBadOff
            ++ "\n" ++ pfx ++ colorOKOnBold ++ "\texpected: " ++ colorOKOn
            ++ indentStringIn core.expectedStr (pfx ++ "\t          ") ++ colorOKOff)
    ++ (match originText with
        | some t => "\n" ++ pfx ++ "Originates from following error:\n" ++ t
        | none => "")
    ++ (if core.Location.initialized && !core.Location.behindCmp &&
           (match nextInfo with
            | none => true
            | some p => p.1 != core.Location) then
          "\n" ++ pfx ++ "[under TestDeep operator " ++ core.Location.render ++ "]"
        else "")
    ++ (match nextInfo with
        | some p => "\n" ++ p.2
        | none => "")

/-- `Error.Append` from `internal/ctxerr`: the text appended to the buffer
for the error chain `e`, each line prefixed with `pfx`.  When `pfx` is
empty the source's two `writeEolPrefix` closures coincide, so a single
`"\n" ++ pfx` models both; the origin chain is rendered with prefix
`pfx ++ "\t"` and the next sibling with the same prefix, exactly as in the
source. -/
def Error.Append : Error → String → String
  | .mk core none none, pfx => appendAssemble core pfx none none
  | .mk core none (some nx), pfx =>
    appendAssemble core pfx none (some (nx.Location, nx.Append pfx))
  | .mk core (some o) none, pfx =>
    appendAssemble core pfx (some (o.Append (pfx ++ "\t"))) none
  | .mk core (some o) (some nx), pfx =>
    appendAssemble core pfx (some (o.Append (pfx ++ "\t")))
      (some (nx.Location, nx.Append pfx))
termination_by e _ => sizeOf e
decreasing_by all_goals simp +arith [Error._sizeOf_1]

/-- `Error.Error()`: render with an empty prefix. -/
def Error.render (e : Error) : String := e.Append ""

end GoTestdeep

namespace GoTestdeep

/-! ## Operators: `Shallow` (td_shallow.go), `Tag` (td_tag.go), `Delay` -/

/-- A match-time error as produced by an operator's `Match`: either the
`ctxerr.BooleanError` sentinel (boolean-only context) or an error with a
message and raw got/expected strings.  `ctx.CollectError` (from the
engine's context, external to the scope) is modelled as the identity on the
error it is given. -/
inductive MatchErr : Type where
  | booleanError
  | err (Message got expected : String)
deriving DecidableEq

/-- `fmt.Sprintf("0x%x", n)`. -/
def hexStr (n : Nat) : String :=
  "0x" ++ String.mk (Nat.toDigits 16 n)

/-- `tdShallow`: the state built by the `Shallow` constructor. -/
structure tdShallow : Type where
  expectedKind : RKind
  expectedPointer : Nat
  expectedStr : String
deriving DecidableEq

/-- `stringPointer` from td_shallow.go: the `Data` pointer of a string
header. -/
def stringPointer : RValue → Nat
  | .str _ dataPtr _ => dataPtr
  | _ => 0

/-- `Shallow` from td_shallow.go: fixes the expected kind and identity
pointer, or panics (modelled as `Except.error`) on an unsupported kind. -/
def Shallow (expectedPtr : RValue) : Except String tdShallow :=
  match expectedPtr.kind with
  | .chan | .func | .map | .ptr | .slice | .unsafePointer =>
    .ok ⟨expectedPtr.kind, expectedPtr.goPointer, ""⟩
  | .string =>
    .ok ⟨.string, stringPointer expectedPtr, match expectedPtr with
      | .str _ _ s => s
      | _ => ""⟩
  | _ => .error "usage: Shallow(CHANNEL|FUNC|MAP|PTR|SLICE|UNSAFE_PTR|STRING)"

/-- `tdShallow.Match` from td_shallow.go.  `booleanError` is the
`ctx.BooleanError` flag of the context. -/
def tdShallow.Match (s : tdShallow) (booleanError : Bool) (got : RValue) :
    Option MatchErr :=
  if got.kind ≠ s.expectedKind then
    if booleanError then some .booleanError
    else some (.err "bad kind" got.kind.kindString s.expectedKind.kindString)
  else
    let ptr := if s.expectedKind = .string then stringPointer got else got.goPointer
    if ptr ≠ s.expectedPointer then
      if booleanError then some .booleanError
      else some (.err (s.expectedKind.kindString ++ " pointer mismatch")
        (hexStr ptr) (hexStr s.expectedPointer))
    else none

/-- `tdShallow.String` from td_shallow.go. -/
def tdShallow.describe (s : tdShallow) : String :=
  "(" ++ s.expectedKind.kindString ++ ") " ++ hexStr s.expectedPointer

/-- A `reflect.Type`, as returned by `TypeBehind`: kind plus type name. -/
abbrev TypeRep : Type := RKind × String

/-- The operator capability set (interface `TestDeep`) seen from the
consumers modelled here: `Match`, `String`, `TypeBehind`, `HandleInvalid`.
The match function receives the boolean-context flag and the observed
value. -/
structure OpIface : Type where
  matchFn : Bool → RValue → Option MatchErr
  describe : String
  typeBehind : Option TypeRep
  handleInvalid : Bool

/-- The all-default operator (only used as an unreachable fallback for
`Option.getD`). -/
def opZero : OpIface := ⟨fun _ _ => none, "", none, false⟩

/-- Modelled from the spec: `util.CheckTag` of the external `util` package.
Per spec sections 6 and 7, a tag name must be a valid placeholder name:
nonempty, a letter or underscore first, then letters, digits or
underscores; anything else is a construction-time error. -/
def tagValid (t : String) : Bool :=
  match t.data with
  | [] => false
  | c :: rest => (c.isAlpha || c = '_') && rest.all (fun d => d.isAlphanum || d = '_')

/-- The expected value wrapped by `Tag`: either a TestDeep operator or a
plain value (`newSmugglerBase` distinguishes the two with `isTestDeeper`). -/
inductive TagArg : Type where
  | op (o : OpIface)
  | val (v : RValue)

/-- `tdTag`: the state built by the `Tag` constructor. -/
structure tdTag : Type where
  tag : String
  expectedValue : TagArg

/-- `Tag` from td_tag.go: checks the tag name eagerly (panicking — modelled
as `Except.error` — on an invalid one) and wraps the expected value. -/
def Tag (tag : String) (expectedValue : TagArg) : Except String tdTag :=
  if tagValid tag then .ok ⟨tag, expectedValue⟩
  else .error "Tag(): invalid tag"

/-- `tdTag.Match` from td_tag.go: delegates to `deepValueEqual(ctx, got,
t.expectedValue)`.  The matching engine is an external collaborator here,
so it is a parameter `dve` receiving the context flag, the observed value
and the stored expected value. -/
def tdTag.Match (t : tdTag)
    (dve : Bool → RValue → TagArg → Option MatchErr)
    (booleanError : Bool) (got : RValue) : Option MatchErr :=
  dve booleanError got t.expectedValue

/-- `tdTag.HandleInvalid` from td_tag.go. -/
def tdTag.HandleInvalid (_ : tdTag) : Bool := true

/-- `tdTag.TypeBehind` from td_tag.go: the wrapped operator's `TypeBehind`
when the expected value is an operator, otherwise the expected value's type
(`nil` — `none` — for an untyped nil, i.e. an invalid value). -/
def tdTag.TypeBehind (t : tdTag) : Option TypeRep :=
  match t.expectedValue with
  | .op o => o.typeBehind
  | .val v => if v.isValid then some (v.kind, v.tyName) else none

/-- `tdDelay`: the state of a `Delay` wrapper: the delayed constructor, the
`sync.Once` done flag and the operator cell it fills. -/
structure tdDelay : Type where
  delayed : Unit → OpIface
  onceDone : Bool
  operator : Option OpIface

/-- `Delay` from the td package: panics (modelled as `Except.error`) on a
nil constructor function, otherwise returns a fresh wrapper. -/
def Delay (delayed : Option (Unit → OpIface)) : Except String tdDelay :=
  match delayed with
  | none => .error "Delay(DELAYED): DELAYED must be non-nil"
  | some f => .ok ⟨f, false, none⟩

/-- `tdDelay.getOperator`: `once.Do(func() { d.operator = d.delayed() })`
followed by reading `d.operator`.  `sync.Once.Do` runs the closure iff the
done flag is unset, then sets it; the extra `Nat` counts how many times the
delayed constructor was invoked by this call (instrumentation for the
exactly-once theorem). -/
def tdDelay.getOperator (d : tdDelay) : OpIface × tdDelay × Nat :=
  if d.onceDone then (d.operator.getD opZero, d, 0)
  else
    let op := d.delayed ()
    (op, { d with onceDone := true, operator := some op }, 1)

/-- A call to one of the wrapper's protocol methods. -/
inductive DelayCall : Type where
  | matchCall (booleanError : Bool) (got : RValue)
  | describeCall
  | typeBehindCall
  | handleInvalidCall

/-- The result of one protocol call. -/
inductive DelayResult : Type where
  | matched (r : Option MatchErr)
  | described (s : String)
  | typeIs (t : Option TypeRep)
  | handles (b : Bool)
deriving DecidableEq

/-- Dispatch one protocol call on the wrapper: each of `Match`, `String`,
`TypeBehind` and `HandleInvalid` first calls `getOperator`, then forwards
to the built operator. -/
def tdDelay.step (d : tdDelay) : DelayCall → DelayResult × tdDelay × Nat
  | .matchCall be got =>
    match d.getOperator with
    | (op, d', k) => (.matched (op.matchFn be got), d', k)
  | .describeCall =>
    match d.getOperator with
    | (op, d', k) => (.described op.describe, d', k)
  | .typeBehindCall =>
    match d.getOperator with
    | (op, d', k) => (.typeIs op.typeBehind, d', k)
  | .handleInvalidCall =>
    match d.getOperator with
    | (op, d', k) => (.handles op.handleInvalid, d', k)

/-- Run a sequence of protocol calls on the wrapper, collecting the
results, the final state and the total number of invocations of the
delayed constructor. -/
def tdDelay.run (d : tdDelay) : List DelayCall → List DelayResult × tdDelay × Nat
  | [] => ([], d, 0)
  | c :: cs =>
    match d.step c with
    | (res, d', k) =>
      match d'.run cs with
      | (rs, d'', total) => (res :: rs, d'', k + total)

/-- The result a protocol call would produce when forwarded directly to
operator `op` (what "transparently forwards" means). -/
def forwardTo (op : OpIface) : DelayCall → DelayResult
  | .matchCall be got => .matched (op.matchFn be got)
  | .describeCall => .described op.describe
  | .typeBehindCall => .typeIs op.typeBehind
  | .handleInvalidCall => .handles op.handleInvalid

end GoTestdeep

namespace GoTestdeep

/-! ## Claim-side definitions -/

/-- The identity `Shallow` compares for a value: the backing-storage data
pointer for strings, `Value.Pointer()` for the reference kinds. -/
def identityPointer (x : RValue) : Nat :=
  match x.kind with
  | .string => stringPointer x
  | _ => x.goPointer

/-- The kinds `Shallow` accepts. -/
def shallowKinds : List RKind :=
  [.chan, .func, .map, .ptr, .slice, .unsafePointer, .string]

/-- Section 1 of the rendering walk: the title line — the path substituted
at a `%%` marker inside the message, otherwise the path, `": "`, and the
message. -/
def renderMessagePart (core : ErrCore) (pfx : String) : String :=
  pfx ++ colorTitleOn ++ substPath core.Message core.ctxPath ++ colorTitleOff

/-- Section 2 of the rendering walk: the custom summary when present,
otherwise the got and expected values. -/
def renderValuesPart (core : ErrCore) (pfx : String) : String :=
  match core.summary with
  | some f => "\n" ++ f (pfx ++ "\t")
  | none =>
    "\n" ++ pfx ++ colorBadOnBold ++ "\t     got: " ++ colorBadOn
      ++ indentStringIn core.gotStr (pfx ++ "\t          ") ++ colorBadOff
      ++ "\n" ++ pfx ++ colorOKOnBold ++ "\texpected: " ++ colorOKOn
      ++ indentStringIn core.expectedStr (pfx ++ "\t          ") ++ colorOKOff

/-- Section 3 of the rendering walk: the origin chain when present. -/
def renderOriginPart (origin : Option Error) (pfx : String) : String :=
  match origin with
  | some o => "\n" ++ pfx ++ "Originates from following error:\n" ++ o.Append (pfx ++ "\t")
  | none => ""

/-- Section 4 of the rendering walk: the originating-operator location line
when the location is initialized, not behind a `Cmp` function, and not
repeated by the next sibling. -/
def renderLocationPart (core : ErrCore) (next : Option Error) (pfx : String) : String :=
  if core.Location.initialized && !core.Location.behindCmp &&
      (match next with
       | none => true
       | some nx => nx.Location != core.Location) then
    "\n" ++ pfx ++ "[under TestDeep operator " ++ core.Location.render ++ "]"
  else ""

/-- Section 5 of the rendering walk: the next sibling error. -/
def renderNextPart (next : Option Error) (pfx : String) : String :=
  match next with
  | some nx => "\n" ++ nx.Append pfx
  | none => ""

/-- `Less` of the sort adapter (`SortableValues`): is `a` strictly below
`b` for the comparator, starting from the given visited set? -/
def cmpLess (fuel : Nat) (h : Heap) (a b : RValue) : Bool :=
  match cmp fuel h [] a b with
  | some (r, _) => decide (r < 0)
  | none => false

/-- Insert into a sorted list (ascending for `less`). -/
def insertVal (less : RValue → RValue → Bool) (x : RValue) : List RValue → List RValue
  | [] => [x]
  | y :: ys => if less y x then y :: insertVal less x ys else x :: y :: ys

/-- Ascending insertion sort: a model of handing the sort adapter to a
standard sort routine. -/
def sortValues (less : RValue → RValue → Bool) : List RValue → List RValue
  | [] => []
  | x :: xs => insertVal less x (sortValues less xs)

end GoTestdeep

namespace GoTestdeep

/-! ## NaN-freedom, scalar comparison, and the termination measure -/

/-- No NaN occurs in the value (inline parts only; slice/pointer contents
are covered by `Heap.nanFree`). -/
def RValue.nanFree : RValue → Bool
  | .float _ x => !x.isNaN
  | .complex _ re im => !re.isNaN && !im.isNaN
  | .array _ es => es.attach.all (fun p => p.1.nanFree)
  | .struct _ fs => fs.attach.all (fun p => p.1.nanFree)
  | .iface _ (some x) => x.nanFree
  | _ => true
termination_by v => sizeOf v
decreasing_by
  all_goals simp +arith [RValue._sizeOf_1]
  all_goals (have hm := List.sizeOf_lt_of_mem p.2; omega)

/-- No NaN occurs anywhere in the heap. -/
def Heap.nanFree (h : Heap) : Bool :=
  h.arrs.all (fun p => p.2.all (fun x => x.nanFree)) &&
  h.ptrs.all (fun p => p.2.nanFree)

/-- The scalar (non-composite, non-reference) kinds: invalid, bool, the
numeric kinds and strings. -/
def RValue.isScalar : RValue → Bool
  | .invalid => true
  | .bool _ _ => true
  | .int _ _ => true
  | .uint _ _ => true
  | .float _ _ => true
  | .complex _ _ _ => true
  | .str _ _ _ => true
  | _ => false

/-- The comparator's verdict on two same-type scalar values (the scalar
branches of `cmp`'s kind switch). -/
def scalarValueCmp : RValue → RValue → Int
  | .bool _ ab, .bool _ bb =>
    if ab then (if bb then 0 else 1) else (if bb then -1 else 0)
  | .int _ na, .int _ nb => cmpRet (decide (na < nb)) (decide (nb < na))
  | .uint _ na, .uint _ nb => cmpRet (decide (na < nb)) (decide (nb < na))
  | .float _ fa, .float _ fb => cmpFloat fa fb
  | .complex _ ra ia, .complex _ rb ib =>
    if cmpFloat ra rb ≠ 0 then cmpFloat ra rb else cmpFloat ia ib
  | .str _ _ sa, .str _ _ sb => cmpRet (strLt sa sb) (strLt sb sa)
  | _, _ => 0

/-- The comparator's verdict on two scalar values: validity first, then the
type names, then the value comparison. -/
def scalarCmp (a b : RValue) : Int :=
  if !a.isValid then (if !b.isValid then 0 else -1)
  else if !b.isValid then 1
  else if !(a.sameType b) then
    cmpRet (strLt a.tyName b.tyName) (strLt b.tyName a.tyName)
  else scalarValueCmp a b

mutual

/-- All addresses that could be recorded by the visited guard while
descending through the inline part of a value (`listAddrs` collects them
over a list of values). -/
def addrsOf : RValue → Finset Nat
  | .slice _ addr _ => {addr}
  | .ptr _ addr => {addr}
  | .map _ addr _ => {addr}
  | .array _ es => listAddrs es
  | .struct _ fs => listAddrs fs
  | .iface _ (some x) => addrsOf x
  | _ => ∅
termination_by v => sizeOf v
decreasing_by all_goals simp +arith [RValue._sizeOf_1]

/-- See `addrsOf`. -/
def listAddrs : List RValue → Finset Nat
  | [] => ∅
  | x :: xs => addrsOf x ∪ listAddrs xs
termination_by l => sizeOf l
decreasing_by all_goals simp +arith [RValue._sizeOf_1]

end

/-- All addresses recordable from anywhere in the heap. -/
def Heap.allAddrs (h : Heap) : Finset Nat :=
  (h.arrs.foldr (fun p s => listAddrs p.2 ∪ s) ∅) ∪
  (h.ptrs.foldr (fun p s => addrsOf p.2 ∪ s) ∅)

/-- The identity pairs a comparison of `a` and `b` over heap `h` could ever
record. -/
def pairUniv (h : Heap) (a b : RValue) : Finset (Nat × Nat) :=
  ((h.allAddrs ∪ addrsOf a ∪ addrsOf b) ×ˢ (h.allAddrs ∪ addrsOf a ∪ addrsOf b))

/-- The termination measure: the number of recordable pairs not yet
visited. -/
def cmpMeasure (h : Heap) (v : VisitedL) (a b : RValue) : Nat :=
  ((pairUniv h a b).filter (fun p => p ∉ v)).card

end GoTestdeep


namespace GoTestdeep

theorem GoFloat_flt_irrefl (x : GoFloat) : x.flt x = false := by
  cases x <;> simp [GoFloat.flt]

theorem cmpFloat_self (x : GoFloat) (hx : x.isNaN = false) : cmpFloat x x = 0 := by
  simp [cmpFloat, hx, GoFloat_flt_irrefl, cmpRet]

theorem strLtChars_irrefl (l : List Char) : strLtChars l l = false := by
  induction l with
  | nil => rfl
  | cons c cs ih => simp [strLtChars, ih]

theorem strLt_irrefl (s : String) : strLt s s = false := strLtChars_irrefl s.data

theorem sameType_self (a : RValue) : a.sameType a = true := by
  simp [RValue.sameType]

theorem nanFree_array {ty : String} {es : List RValue}
    (hn : (RValue.array ty es).nanFree = true) : ∀ x ∈ es, x.nanFree = true := by
  intro x hx
  rw [RValue.nanFree] at hn
  have := List.all_eq_true.mp hn ⟨x, hx⟩ (List.mem_attach es ⟨x, hx⟩)
  simpa using this

theorem nanFree_struct {ty : String} {fs : List RValue}
    (hn : (RValue.struct ty fs).nanFree = true) : ∀ x ∈ fs, x.nanFree = true := by
  intro x hx
  rw [RValue.nanFree] at hn
  have := List.all_eq_true.mp hn ⟨x, hx⟩ (List.mem_attach fs ⟨x, hx⟩)
  simpa using this

theorem nanFree_iface {ty : String} {x : RValue}
    (hn : (RValue.iface ty (some x)).nanFree = true) : x.nanFree = true := by
  rw [RValue.nanFree] at hn
  exact hn

theorem lookupMem {β : Type} {l : List (Nat × β)} {a : Nat} {b : β}
    (h : l.lookup a = some b) : (a, b) ∈ l := by
  induction l with
  | nil => simp [List.lookup] at h
  | cons p ps ih =>
    obtain ⟨k, v⟩ := p
    rw [List.lookup] at h
    by_cases hk : a == k
    · simp [hk] at h
      have : a = k := by simpa using hk
      simp [this, ← h]
    · simp [hk] at h
      simp [ih h]

theorem heap_nanFree_arr {h : Heap} (hh : h.nanFree = true) (addr : Nat) :
    ∀ x ∈ h.lookupArr addr, x.nanFree = true := by
  intro x hx
  unfold Heap.lookupArr at hx
  cases hl : h.arrs.lookup addr with
  | none => rw [hl] at hx; simp at hx
  | some l =>
    rw [hl] at hx
    simp at hx
    have hmem : (addr, l) ∈ h.arrs := lookupMem hl
    unfold Heap.nanFree at hh
    simp [List.all_eq_true] at hh
    exact hh.1 addr l hmem x hx

theorem heap_nanFree_ptr {h : Heap} (hh : h.nanFree = true) (addr : Nat) :
    (h.lookupPtr addr).nanFree = true := by
  unfold Heap.lookupPtr
  cases hl : h.ptrs.lookup addr with
  | none => simp [RValue.nanFree]
  | some x =>
    simp
    have hmem : (addr, x) ∈ h.ptrs := lookupMem hl
    unfold Heap.nanFree at hh
    simp [List.all_eq_true] at hh
    exact hh.2 addr x hmem

end GoTestdeep


namespace GoTestdeep

theorem cmp_refl_aux (h : Heap) (hh : h.nanFree = true) : ∀ n : Nat,
    (∀ (v : VisitedL) (a : RValue), a.nanFree = true →
      ∀ (r : Int) (v' : VisitedL), cmp n h v a a = some (r, v') → r = 0)
    ∧ (∀ (l : List RValue), (∀ x ∈ l, x.nanFree = true) →
      ∀ (v : VisitedL) (r : Int) (v' : VisitedL),
        cmpList (cmp n h) (l.zip l) v = some (r, v') → r = 0) := by
  intro n
  induction n with
  | zero =>
    constructor
    · intro v a _ r v' hc
      simp [cmp] at hc
    · intro l hl v r v' hc
      cases l with
      | nil =>
        simp [cmpList] at hc
        exact hc.1.symm
      | cons x xs => simp [cmpList, cmp] at hc
  | succ n ih =>
    have M : ∀ (v : VisitedL) (a : RValue), a.nanFree = true →
        ∀ (r : Int) (v' : VisitedL), cmp (n+1) h v a a = some (r, v') → r = 0 := by
      intro v a ha r v' hc
      cases a with
      | invalid =>
        simp [cmp, cmpBody, RValue.isValid] at hc
        exact hc.1.symm
      | bool ty b =>
        cases b <;>
          simp [cmp, cmpBody, RValue.isValid, sameType_self, visitedRecord, recordIdent] at hc <;>
          exact hc.1.symm
      | int ty na =>
        simp [cmp, cmpBody, RValue.isValid, sameType_self, visitedRecord, recordIdent, cmpRet] at hc
        exact hc.1.symm
      | uint ty na =>
        simp [cmp, cmpBody, RValue.isValid, sameType_self, visitedRecord, recordIdent, cmpRet] at hc
        exact hc.1.symm
      | float ty x =>
        have hx : x.isNaN = false := by
          rw [RValue.nanFree] at ha
          simpa using ha
        simp [cmp, cmpBody, RValue.isValid, sameType_self, visitedRecord, recordIdent,
          cmpFloat_self x hx] at hc
        exact hc.1.symm
      | complex ty re im =>
        have hri : re.isNaN = false ∧ im.isNaN = false := by
          rw [RValue.nanFree] at ha
          simpa using ha
        simp [cmp, cmpBody, RValue.isValid, sameType_self, visitedRecord, recordIdent,
          cmpFloat_self re hri.1, cmpFloat_self im hri.2] at hc
        exact hc.1.symm
      | str ty d s =>
        simp [cmp, cmpBody, RValue.isValid, sameType_self, visitedRecord, recordIdent,
          strLt_irrefl, cmpRet] at hc
        exact hc.1.symm
      | array ty es =>
        simp only [cmp, cmpBody, cmpBody, RValue.isValid, sameType_self, visitedRecord, recordIdent,
          Bool.not_true, Bool.not_false, if_false, ite_true, ite_false] at hc
        exact ih.2 es (nanFree_array ha) v r v' hc
      | slice ty aa la =>
        simp only [cmp, cmpBody, cmpBody, RValue.isValid, sameType_self, visitedRecord, recordIdent,
          Bool.not_true, Bool.not_false, if_false, ite_true, ite_false] at hc
        by_cases hv : (aa, aa) ∈ v
        · simp [hv] at hc
          exact hc.1.symm
        · simp only [hv, if_false, ite_false] at hc
          cases hcl : cmpList (cmp n h)
              (((h.lookupArr aa).take la).zip ((h.lookupArr aa).take la)) ((aa, aa) :: v) with
          | none => rw [hcl] at hc; simp at hc
          | some rv =>
            obtain ⟨rl, vl⟩ := rv
            rw [hcl] at hc
            have hrl : rl = 0 := by
              refine ih.2 ((h.lookupArr aa).take la) ?_ ((aa, aa) :: v) rl vl hcl
              intro x hx
              exact heap_nanFree_arr hh aa x (List.mem_of_mem_take hx)
            subst hrl
            simp [cmpRet] at hc
            exact hc.1.symm
      | iface ty oe =>
        cases oe with
        | none =>
          simp [cmp, cmpBody, RValue.isValid, sameType_self, visitedRecord, recordIdent] at hc
          exact hc.1.symm
        | some x =>
          simp only [cmp, cmpBody, cmpBody, RValue.isValid, sameType_self, visitedRecord, recordIdent,
            Bool.not_true, Bool.not_false, if_false, ite_true, ite_false] at hc
          exact ih.1 v x (nanFree_iface ha) r v' hc
      | struct ty fs =>
        simp only [cmp, cmpBody, cmpBody, RValue.isValid, sameType_self, visitedRecord, recordIdent,
          Bool.not_true, Bool.not_false, if_false, ite_true, ite_false] at hc
        exact ih.2 fs (nanFree_struct ha) v r v' hc
      | ptr ty pa =>
        by_cases hv : (pa, pa) ∈ v <;>
          simp [cmp, cmpBody, RValue.isValid, sameType_self, visitedRecord, recordIdent, hv] at hc <;>
          exact hc.1.symm
      | map ty ma la =>
        by_cases hv : (ma, ma) ∈ v <;>
          simp [cmp, cmpBody, RValue.isValid, sameType_self, visitedRecord, recordIdent, hv, cmpRet] at hc <;>
          exact hc.1.symm
      | func ty pa =>
        simp [cmp, cmpBody, RValue.isValid, sameType_self, visitedRecord, recordIdent, cmpRet] at hc
        exact hc.1.symm
      | chan ty pa =>
        simp [cmp, cmpBody, RValue.isValid, sameType_self, visitedRecord, recordIdent, cmpRet] at hc
        exact hc.1.symm
      | unsafePointer ty pa =>
        simp [cmp, cmpBody, RValue.isValid, sameType_self, visitedRecord, recordIdent, cmpRet] at hc
        exact hc.1.symm
    refine ⟨M, ?_⟩
    intro l hl
    induction l with
    | nil =>
      intro v r v' hc
      simp [cmpList] at hc
      exact hc.1.symm
    | cons x xs ihxs =>
      intro v r v' hc
      rw [List.zip_cons_cons, cmpList] at hc
      cases hcx : cmp (n+1) h v x x with
      | none => rw [hcx] at hc; simp at hc
      | some rv =>
        obtain ⟨rx, vx⟩ := rv
        rw [hcx] at hc
        have hrx : rx = 0 := M v x (hl x (by simp)) rx vx hcx
        subst hrx
        simp at hc
        exact ihxs (fun y hy => hl y (by simp [hy])) vx r v' hc

end GoTestdeep


namespace GoTestdeep

theorem cmpRet_neg {l g : Bool} (hlg : l = true → g = false) :
    -(cmpRet l g) = cmpRet g l := by
  cases l with
  | true => simp [hlg rfl, cmpRet]
  | false => cases g <;> simp [cmpRet]

theorem strLtChars_asymm : ∀ {x y : List Char},
    strLtChars x y = true → strLtChars y x = false := by
  intro x
  induction x with
  | nil =>
    intro y hy
    cases y with
    | nil => simpa [strLtChars] using hy
    | cons b bs => rfl
  | cons a as ih =>
    intro y hy
    cases y with
    | nil => simp [strLtChars] at hy
    | cons b bs =>
      rw [strLtChars] at hy ⊢
      by_cases h1 : a.toNat < b.toNat
      · have h2 : ¬ b.toNat < a.toNat := by omega
        simp [h1, h2]
      · by_cases h2 : b.toNat < a.toNat
        · simp [h1, h2] at hy
        · simp [h1, h2] at hy ⊢
          exact ih hy

theorem flt_asymm {a b : GoFloat} (hab : a.flt b = true) : b.flt a = false := by
  cases a <;> cases b <;> simp_all [GoFloat.flt] <;>
    first
      | exact le_of_lt hab
      | exact lt_asymm hab

theorem cmpFloat_neg {a b : GoFloat} (ha : a.isNaN = false) (hb : b.isNaN = false) :
    -(cmpFloat a b) = cmpFloat b a := by
  simp [cmpFloat, ha, hb]
  exact cmpRet_neg (fun hl => flt_asymm hl)

theorem sameType_comm (a b : RValue) : a.sameType b = b.sameType a := by
  rcases eq_or_ne a.kind b.kind with h1 | h1 <;>
    rcases eq_or_ne a.tyName b.tyName with h2 | h2
  · simp [RValue.sameType, h1, h2]
  · simp [RValue.sameType, h1, h2, Ne.symm h2]
  · simp [RValue.sameType, h1, h2, Ne.symm h1]
  · rw [RValue.sameType, RValue.sameType,
      beq_eq_false_iff_ne.mpr h1, beq_eq_false_iff_ne.mpr (Ne.symm h1)]
    simp

theorem mem_map_swap (x y : Nat) (v : VisitedL) :
    (x, y) ∈ v.map Prod.swap ↔ (y, x) ∈ v := by
  constructor
  · intro hm
    obtain ⟨p, hp, he⟩ := List.mem_map.mp hm
    obtain ⟨p1, p2⟩ := p
    simp [Prod.swap] at he
    simpa [← he.1, ← he.2] using hp
  · intro hm
    exact List.mem_map.mpr ⟨(y, x), hm, rfl⟩

theorem strLt_asymm {s t : String} (h : strLt s t = true) : strLt t s = false :=
  strLtChars_asymm h

end GoTestdeep


namespace GoTestdeep

theorem cmp_antisym_aux (h : Heap) (hh : h.nanFree = true) : ∀ n : Nat,
    (∀ (v : VisitedL) (a b : RValue), a.nanFree = true → b.nanFree = true →
      cmp n h (v.map Prod.swap) b a
        = (cmp n h v a b).map (fun rv => (-rv.1, rv.2.map Prod.swap)))
    ∧ (∀ (l : List (RValue × RValue)),
        (∀ p ∈ l, p.1.nanFree = true ∧ p.2.nanFree = true) →
      ∀ (v : VisitedL),
        cmpList (cmp n h) (l.map Prod.swap) (v.map Prod.swap)
          = (cmpList (cmp n h) l v).map (fun rv => (-rv.1, rv.2.map Prod.swap))) := by
  intro n
  induction n with
  | zero =>
    constructor
    · intro v a b _ _
      simp [cmp]
    · intro l hl v
      cases l with
      | nil => simp [cmpList]
      | cons p ps => simp [cmpList, cmp]
  | succ n ih =>
    have M : ∀ (v : VisitedL) (a b : RValue), a.nanFree = true → b.nanFree = true →
        cmp (n+1) h (v.map Prod.swap) b a
          = (cmp (n+1) h v a b).map (fun rv => (-rv.1, rv.2.map Prod.swap)) := by
      intro v a b ha hb
      by_cases hva : a.isValid = true
      case neg =>
        have hva' : a.isValid = false := by simpa using hva
        by_cases hvb : b.isValid = true
        · simp [cmp, cmpBody, hva', hvb]
        · have hvb' : b.isValid = false := by simpa using hvb
          simp [cmp, cmpBody, hva', hvb']
      case pos =>
        by_cases hvb : b.isValid = true
        case neg =>
          have hvb' : b.isValid = false := by simpa using hvb
          simp [cmp, cmpBody, hva, hvb']
        case pos =>
          by_cases hst : a.sameType b = true
          case neg =>
            have hst' : a.sameType b = false := by simpa using hst
            have hst2 : b.sameType a = false := by rw [sameType_comm]; exact hst'
            simp [cmp, cmpBody, hva, hvb, hst', hst2]
            exact (cmpRet_neg (fun hl => strLt_asymm hl)).symm
          case pos =>
            have hst2 : b.sameType a = true := by rw [sameType_comm]; exact hst
            cases a <;> cases b <;>
              (try (exfalso; revert hst; simp [RValue.sameType, RValue.kind]; done)) <;>
              (try (simp [RValue.isValid] at hva))
            case bool.bool tya ab tyb bb =>
              cases ab <;> cases bb <;>
                simp [cmp, cmpBody, RValue.isValid, hst, hst2, visitedRecord, recordIdent]
            case int.int tya na tyb nb =>
              simp [cmp, cmpBody, RValue.isValid, hst, hst2, visitedRecord, recordIdent]
              exact (cmpRet_neg (by intro hl; simp at hl ⊢; omega)).symm
            case uint.uint tya na tyb nb =>
              simp [cmp, cmpBody, RValue.isValid, hst, hst2, visitedRecord, recordIdent]
              exact (cmpRet_neg (by intro hl; simp at hl ⊢; omega)).symm
            case float.float tya fa tyb fb =>
              have hfa : fa.isNaN = false := by rw [RValue.nanFree] at ha; simpa using ha
              have hfb : fb.isNaN = false := by rw [RValue.nanFree] at hb; simpa using hb
              simp [cmp, cmpBody, RValue.isValid, hst, hst2, visitedRecord, recordIdent]
              exact (cmpFloat_neg hfa hfb).symm
            case complex.complex tya ra ia tyb rb ib =>
              have hra : ra.isNaN = false ∧ ia.isNaN = false := by
                rw [RValue.nanFree] at ha; simpa using ha
              have hrb : rb.isNaN = false ∧ ib.isNaN = false := by
                rw [RValue.nanFree] at hb; simpa using hb
              simp only [cmp, cmpBody, cmpBody, RValue.isValid, hst, hst2, visitedRecord, recordIdent,
                Bool.not_true, Bool.not_false, if_false, ite_true, ite_false]
              by_cases hr : cmpFloat ra rb = 0
              · have hr' : cmpFloat rb ra = 0 := by
                  rw [← cmpFloat_neg hra.1 hrb.1, hr]; rfl
                simp [hr, hr', ← cmpFloat_neg hra.2 hrb.2]
              · have hr' : cmpFloat rb ra ≠ 0 := by
                  rw [← cmpFloat_neg hra.1 hrb.1]
                  simpa using hr
                simp [hr, hr', ← cmpFloat_neg hra.1 hrb.1]
            case str.str tya da sa tyb db sb =>
              simp [cmp, cmpBody, RValue.isValid, hst, hst2, visitedRecord, recordIdent]
              exact (cmpRet_neg (fun hl => strLt_asymm hl)).symm
            case array.array tya ea tyb eb =>
              simp only [cmp, cmpBody, cmpBody, RValue.isValid, hst, hst2, visitedRecord, recordIdent,
                Bool.not_true, Bool.not_false, if_false, ite_true, ite_false]
              rw [← List.zip_swap ea eb]
              refine ih.2 (ea.zip eb) ?_ v
              intro p hp
              obtain ⟨hp1, hp2⟩ := List.of_mem_zip hp
              exact ⟨nanFree_array ha p.1 hp1, nanFree_array hb p.2 hp2⟩
            case slice.slice tya aa la tyb ab lb =>
              simp only [cmp, cmpBody, cmpBody, RValue.isValid, hst, hst2, visitedRecord, recordIdent,
                Bool.not_true, Bool.not_false, if_false, ite_true, ite_false]
              by_cases hv : (aa, ab) ∈ v
              · have hv2 : (ab, aa) ∈ v.map Prod.swap := (mem_map_swap ab aa v).mpr hv
                simp [hv, hv2]
              · have hv2 : (ab, aa) ∉ v.map Prod.swap := by
                  rw [mem_map_swap]; exact hv
                simp only [hv, hv2, if_false, ite_false, ite_true]
                have hlst := ih.2
                    (((h.lookupArr aa).take la).zip ((h.lookupArr ab).take lb))
                    (by
                      intro p hp
                      obtain ⟨hp1, hp2⟩ := List.of_mem_zip hp
                      exact ⟨heap_nanFree_arr hh aa p.1 (List.mem_of_mem_take hp1),
                        heap_nanFree_arr hh ab p.2 (List.mem_of_mem_take hp2)⟩)
                    ((aa, ab) :: v)
                rw [List.zip_swap] at hlst
                have hcons : ((aa, ab) :: v).map Prod.swap = (ab, aa) :: v.map Prod.swap := by
                  simp
                rw [← hcons, hlst]
                cases hcl : cmpList (cmp n h)
                    (((h.lookupArr aa).take la).zip ((h.lookupArr ab).take lb))
                    ((aa, ab) :: v) with
                | none => simp
                | some rv =>
                  obtain ⟨rl, vl⟩ := rv
                  by_cases hrl : rl = 0
                  · subst hrl
                    simp
                    exact (cmpRet_neg (by intro hl; simp at hl ⊢; omega)).symm
                  · have hrl' : -rl ≠ 0 := by simpa using hrl
                    simp [hrl, hrl']
            case iface.iface tya oa tyb ob =>
              cases oa with
              | none =>
                cases ob with
                | none => simp [cmp, cmpBody, RValue.isValid, hst, hst2, visitedRecord, recordIdent]
                | some xb => simp [cmp, cmpBody, RValue.isValid, hst, hst2, visitedRecord, recordIdent]
              | some xa =>
                cases ob with
                | none => simp [cmp, cmpBody, RValue.isValid, hst, hst2, visitedRecord, recordIdent]
                | some xb =>
                  simp only [cmp, cmpBody, cmpBody, RValue.isValid, hst, hst2, visitedRecord, recordIdent,
                    Bool.not_true, Bool.not_false, if_false, ite_true, ite_false]
                  exact ih.1 v xa xb (nanFree_iface ha) (nanFree_iface hb)
            case struct.struct tya fa tyb fb =>
              simp only [cmp, cmpBody, cmpBody, RValue.isValid, hst, hst2, visitedRecord, recordIdent,
                Bool.not_true, Bool.not_false, if_false, ite_true, ite_false]
              rw [← List.zip_swap fa fb]
              refine ih.2 (fa.zip fb) ?_ v
              intro p hp
              obtain ⟨hp1, hp2⟩ := List.of_mem_zip hp
              exact ⟨nanFree_struct ha p.1 hp1, nanFree_struct hb p.2 hp2⟩
            case ptr.ptr tya pa tyb pb =>
              simp only [cmp, cmpBody, cmpBody, RValue.isValid, hst, hst2, visitedRecord, recordIdent,
                Bool.not_true, Bool.not_false, if_false, ite_true, ite_false]
              by_cases hv : (pa, pb) ∈ v
              · have hv2 : (pb, pa) ∈ v.map Prod.swap := (mem_map_swap pb pa v).mpr hv
                simp [hv, hv2]
              · have hv2 : (pb, pa) ∉ v.map Prod.swap := by
                  rw [mem_map_swap]; exact hv
                simp only [hv, hv2, if_false, ite_false, ite_true]
                by_cases hpe : pa = pb
                · simp [hpe]
                · have hpe2 : ¬ pb = pa := fun hx => hpe hx.symm
                  by_cases hp0 : pa = 0
                  · have hpb0 : ¬ pb = 0 := by
                      intro hx; exact hpe (by rw [hp0, hx])
                    simp [hpe, hpe2, hp0, hpb0, Ne.symm hpb0]
                  · by_cases hq0 : pb = 0
                    · simp [hpe, hpe2, hp0, hq0, Ne.symm hp0]
                    · simp only [hpe, hpe2, hp0, hq0, if_false, ite_false]
                      have hcons : ((pa, pb) :: v).map Prod.swap
                          = (pb, pa) :: v.map Prod.swap := by simp
                      rw [← hcons]
                      exact ih.1 ((pa, pb) :: v) (h.lookupPtr pa) (h.lookupPtr pb)
                        (heap_nanFree_ptr hh pa) (heap_nanFree_ptr hh pb)
            case map.map tya ma la tyb mb lb =>
              simp only [cmp, cmpBody, cmpBody, RValue.isValid, hst, hst2, visitedRecord, recordIdent,
                Bool.not_true, Bool.not_false, if_false, ite_true, ite_false]
              by_cases hv : (ma, mb) ∈ v
              · have hv2 : (mb, ma) ∈ v.map Prod.swap := (mem_map_swap mb ma v).mpr hv
                simp [hv, hv2]
              · have hv2 : (mb, ma) ∉ v.map Prod.swap := by
                  rw [mem_map_swap]; exact hv
                simp only [hv, hv2, if_false, ite_false, ite_true]
                by_cases hle : la = lb
                · simp [hle]
                  exact (cmpRet_neg (by intro hl; simp at hl ⊢; omega)).symm
                · have hle2 : ¬ lb = la := fun hx => hle hx.symm
                  simp [hle, hle2]
                  exact (cmpRet_neg (by intro hl; simp at hl ⊢; omega)).symm
            case func.func tya pa tyb pb =>
              simp [cmp, cmpBody, RValue.isValid, hst, hst2, visitedRecord, recordIdent]
              exact (cmpRet_neg (by intro hl; simp at hl ⊢; omega)).symm
            case chan.chan tya pa tyb pb =>
              simp [cmp, cmpBody, RValue.isValid, hst, hst2, visitedRecord, recordIdent]
              exact (cmpRet_neg (by intro hl; simp at hl ⊢; omega)).symm
            case unsafePointer.unsafePointer tya pa tyb pb =>
              simp [cmp, cmpBody, RValue.isValid, hst, hst2, visitedRecord, recordIdent]
              exact (cmpRet_neg (by intro hl; simp at hl ⊢; omega)).symm
    refine ⟨M, ?_⟩
    intro l hl
    induction l with
    | nil =>
      intro v
      simp [cmpList]
    | cons p ps ihps =>
      intro v
      obtain ⟨p1, p2⟩ := p
      rw [List.map_cons, cmpList, cmpList]
      simp only [Prod.swap_prod_mk]
      rw [M v p1 p2 (hl (p1, p2) (by simp)).1 (hl (p1, p2) (by simp)).2]
      cases hcp : cmp (n+1) h v p1 p2 with
      | none => simp
      | some rv =>
        obtain ⟨r, v'⟩ := rv
        by_cases hr : r = 0
        · subst hr
          simp
          exact ihps (fun q hq => hl q (by simp [hq])) v'
        · have hr' : -r ≠ 0 := by simpa using hr
          simp [hr, hr']

end GoTestdeep


namespace GoTestdeep

theorem cmpRet_lt_zero (l g : Bool) : cmpRet l g < 0 ↔ l = true := by
  cases l <;> cases g <;> simp [cmpRet]

theorem strLtChars_trans : ∀ {x y z : List Char},
    strLtChars x y = true → strLtChars y z = true → strLtChars x z = true := by
  intro x
  induction x with
  | nil =>
    intro y z hxy hyz
    cases y with
    | nil => simp [strLtChars] at hxy
    | cons b bs =>
      cases z with
      | nil => simp [strLtChars] at hyz
      | cons c cs => simp [strLtChars]
  | cons a as ih =>
    intro y z hxy hyz
    cases y with
    | nil => simp [strLtChars] at hxy
    | cons b bs =>
      cases z with
      | nil => simp [strLtChars] at hyz
      | cons c cs =>
        rw [strLtChars] at hxy hyz ⊢
        by_cases h1 : a.toNat < b.toNat <;> by_cases h2 : b.toNat < c.toNat
        · simp [show a.toNat < c.toNat by omega]
        · simp [h2] at hyz
          obtain ⟨hbc, hrec2⟩ := hyz
          simp [show a.toNat < c.toNat by omega]
        · simp [h1] at hxy
          obtain ⟨hab, hrec1⟩ := hxy
          simp [show a.toNat < c.toNat by omega]
        · simp [h1] at hxy
          simp [h2] at hyz
          obtain ⟨hab, hrec1⟩ := hxy
          obtain ⟨hbc, hrec2⟩ := hyz
          have hac : ¬ a.toNat < c.toNat := by omega
          have hca : ¬ c.toNat < a.toNat := by omega
          simp [hac, hca]
          exact ih hrec1 hrec2

theorem strLt_trans {s t u : String} (h1 : strLt s t = true) (h2 : strLt t u = true) :
    strLt s u = true :=
  strLtChars_trans h1 h2

theorem flt_trans : ∀ {a b c : GoFloat},
    a.flt b = true → b.flt c = true → a.flt c = true := by
  intro a b c hab hbc
  cases a <;> cases b <;> cases c <;> simp_all [GoFloat.flt]
  exact lt_trans hab hbc

theorem cmpFloat_lt_iff {a b : GoFloat} (ha : a.isNaN = false) :
    cmpFloat a b < 0 ↔ a.flt b = true := by
  by_cases hb : b.isNaN = true
  · have : b = .nan := by cases b <;> simp_all [GoFloat.isNaN]
    subst this
    simp [cmpFloat, ha, GoFloat.flt]
    cases a <;> simp [GoFloat.flt, GoFloat.isNaN] at ha ⊢
  · have hb' : b.isNaN = false := by simpa using hb
    simp [cmpFloat, ha, hb', cmpRet_lt_zero]

theorem cmpFloat_zero_eq {a b : GoFloat} (ha : a.isNaN = false) (hb : b.isNaN = false)
    (h : cmpFloat a b = 0) : a = b := by
  cases a <;> cases b <;> simp_all [cmpFloat, GoFloat.isNaN, GoFloat.flt, cmpRet]
  next x y =>
    split_ifs at h with h1 h2
    all_goals
      first
        | exact le_antisymm (le_of_not_lt h2) (le_of_not_lt h1)
        | simp at h

end GoTestdeep


namespace GoTestdeep

set_option maxRecDepth 4000 in
theorem cmp_scalar (n : Nat) (h : Heap) (v : VisitedL) (a b : RValue)
    (hsa : a.isScalar = true) (hsb : b.isScalar = true) :
    cmp (n+1) h v a b = some (scalarCmp a b, v) := by
  have hra : recordIdent a = none := by
    cases a <;> simp_all [RValue.isScalar, recordIdent]
  have hrb : recordIdent b = none := by
    cases b <;> simp_all [RValue.isScalar, recordIdent]
  by_cases hva : a.isValid = true
  case neg =>
    have hva' : a.isValid = false := by simpa using hva
    by_cases hvb : b.isValid = true
    · simp [cmp, cmpBody, scalarCmp, hva', hvb]
    · have hvb' : b.isValid = false := by simpa using hvb
      simp [cmp, cmpBody, scalarCmp, hva', hvb']
  case pos =>
    by_cases hvb : b.isValid = true
    case neg =>
      have hvb' : b.isValid = false := by simpa using hvb
      simp [cmp, cmpBody, scalarCmp, hva, hvb']
    case pos =>
      by_cases hst : a.sameType b = true
      case neg =>
        have hst' : a.sameType b = false := by simpa using hst
        simp [cmp, cmpBody, scalarCmp, hva, hvb, hst', visitedRecord, hra, hrb]
      case pos =>
        simp only [cmp, cmpBody, cmpBody, scalarCmp, hva, hvb, hst, visitedRecord, hra, hrb,
          Bool.not_true, Bool.not_false, if_false, ite_true, ite_false]
        cases a <;> cases b <;>
          (try (exfalso; revert hst; simp [RValue.sameType, RValue.kind]; done)) <;>
          (try (simp [RValue.isScalar] at hsa hsb)) <;>
          (try (simp [RValue.isValid] at hva)) <;>
          (first
            | simp [scalarValueCmp]
            | (simp only [scalarValueCmp]; split_ifs <;> simp_all)) <;>
          (try (split_ifs <;> rfl))
end GoTestdeep


namespace GoTestdeep

theorem nanFree_float {ty : String} {x : GoFloat}
    (h : (RValue.float ty x).nanFree = true) : x.isNaN = false := by
  rw [RValue.nanFree] at h
  simpa using h

theorem nanFree_complex {ty : String} {re im : GoFloat}
    (h : (RValue.complex ty re im).nanFree = true) :
    re.isNaN = false ∧ im.isNaN = false := by
  rw [RValue.nanFree] at h
  simpa using h

theorem sameType_names {a b : RValue} (h : a.sameType b = true) :
    a.tyName = b.tyName := by
  simp [RValue.sameType] at h
  exact h.2

theorem sameType_kinds {a b : RValue} (h : a.sameType b = true) :
    a.kind = b.kind := by
  simp [RValue.sameType] at h
  exact h.1

theorem sameType_trans {a b c : RValue} (h1 : a.sameType b = true)
    (h2 : b.sameType c = true) : a.sameType c = true := by
  simp [RValue.sameType] at h1 h2 ⊢
  exact ⟨h1.1.trans h2.1, h1.2.trans h2.2⟩

set_option maxRecDepth 4000 in
theorem scalarValueCmp_trans (a b c : RValue)
    (ha : a.nanFree = true) (hb : b.nanFree = true) (hc : c.nanFree = true)
    (hk1 : a.sameType b = true) (hk2 : b.sameType c = true)
    (hab : scalarValueCmp a b < 0) (hbc : scalarValueCmp b c < 0) :
    scalarValueCmp a c < 0 := by
  cases a <;> cases b <;>
    (try (exfalso; revert hk1; simp [RValue.sameType, RValue.kind]; done)) <;>
    cases c <;>
    (try (exfalso; revert hk2; simp [RValue.sameType, RValue.kind]; done)) <;>
    (try (simp [scalarValueCmp] at hab; done))
  case bool.bool.bool tya ab tyb bb tyc cb =>
    cases ab <;> cases bb <;> cases cb <;> simp_all [scalarValueCmp]
  case int.int.int tya na tyb nb tyc nc =>
    simp only [scalarValueCmp, cmpRet_lt_zero] at hab hbc ⊢
    simp at hab hbc ⊢
    omega
  case uint.uint.uint tya na tyb nb tyc nc =>
    simp only [scalarValueCmp, cmpRet_lt_zero] at hab hbc ⊢
    simp at hab hbc ⊢
    omega
  case float.float.float tya fa tyb fb tyc fc =>
    simp only [scalarValueCmp] at hab hbc ⊢
    rw [cmpFloat_lt_iff (nanFree_float ha)] at hab ⊢
    rw [cmpFloat_lt_iff (nanFree_float hb)] at hbc
    exact flt_trans hab hbc
  case str.str.str tya da sa tyb db sb tyc dc sc =>
    simp only [scalarValueCmp, cmpRet_lt_zero] at hab hbc ⊢
    exact strLt_trans hab hbc
  case complex.complex.complex tya ra ia tyb rb ib tyc rc ic =>
    obtain ⟨hra, hia⟩ := nanFree_complex ha
    obtain ⟨hrb, hib⟩ := nanFree_complex hb
    obtain ⟨hrc, hic⟩ := nanFree_complex hc
    simp only [scalarValueCmp] at hab hbc ⊢
    by_cases h1 : cmpFloat ra rb = 0
    · have he1 : ra = rb := cmpFloat_zero_eq hra hrb h1
      simp [h1] at hab
      by_cases h2 : cmpFloat rb rc = 0
      · have he2 : rb = rc := cmpFloat_zero_eq hrb hrc h2
        have h3 : cmpFloat ra rc = 0 := by
          rw [he1, he2]
          exact cmpFloat_self rc hrc
        simp [h3]
        simp [h2] at hbc
        simp [cmpFloat_lt_iff hia] at hab
        simp [cmpFloat_lt_iff hib] at hbc
        rw [cmpFloat_lt_iff hia]
        exact flt_trans hab hbc
      · simp [h2] at hbc
        have h3 : cmpFloat ra rc < 0 := by rw [he1]; exact hbc
        have h4 : cmpFloat ra rc ≠ 0 := by omega
        simp [h4]
        exact h3
    · simp [h1] at hab
      by_cases h2 : cmpFloat rb rc = 0
      · have he2 : rb = rc := cmpFloat_zero_eq hrb hrc h2
        have h3 : cmpFloat ra rc < 0 := by rw [← he2]; exact hab
        have h4 : cmpFloat ra rc ≠ 0 := by omega
        simp [h4]
        exact h3
      · simp [h2] at hbc
        rw [cmpFloat_lt_iff hra] at hab
        rw [cmpFloat_lt_iff hrb] at hbc
        have h3 : cmpFloat ra rc < 0 := by
          rw [cmpFloat_lt_iff hra]
          exact flt_trans hab hbc
        have h4 : cmpFloat ra rc ≠ 0 := by omega
        simp [h4]
        exact h3

theorem scalarCmp_trans (a b c : RValue)
    (ha : a.nanFree = true) (hb : b.nanFree = true) (hc : c.nanFree = true)
    (hab : scalarCmp a b < 0) (hbc : scalarCmp b c < 0) : scalarCmp a c < 0 := by
  by_cases hvb : b.isValid = true
  case neg =>
    have hvb' : b.isValid = false := by simpa using hvb
    by_cases hva : a.isValid = true
    · simp [scalarCmp, hva, hvb'] at hab
    · have hva' : a.isValid = false := by simpa using hva
      simp [scalarCmp, hva', hvb'] at hab
  case pos =>
    by_cases hvc : c.isValid = true
    case neg =>
      have hvc' : c.isValid = false := by simpa using hvc
      simp [scalarCmp, hvb, hvc'] at hbc
    case pos =>
      by_cases hva : a.isValid = true
      case neg =>
        have hva' : a.isValid = false := by simpa using hva
        simp [scalarCmp, hva', hvc]
      case pos =>
        by_cases hst1 : a.sameType b = true <;> by_cases hst2 : b.sameType c = true
        · have hst3 : a.sameType c = true := sameType_trans hst1 hst2
          simp only [scalarCmp, hva, hvb, hvc, hst1, hst2, hst3, Bool.not_true,
            if_false, ite_false, ite_true] at hab hbc ⊢
          simp at hab hbc ⊢
          exact scalarValueCmp_trans a b c ha hb hc hst1 hst2 hab hbc
        · have hst2' : b.sameType c = false := by simpa using hst2
          have hnames : a.tyName = b.tyName := sameType_names hst1
          simp only [scalarCmp, hva, hvb, hvc, hst2', Bool.not_true, Bool.not_false,
            if_false, ite_false, ite_true] at hbc
          simp [cmpRet_lt_zero] at hbc
          have hlt : strLt a.tyName c.tyName = true := by rw [hnames]; exact hbc
          have hst3 : a.sameType c = false := by
            by_contra hx
            have hx' : a.sameType c = true := by
              revert hx
              cases (a.sameType c) <;> simp
            have : a.tyName = c.tyName := sameType_names hx'
            rw [this] at hnames
            rw [← hnames] at hbc
            rw [strLt_irrefl] at hbc
            exact absurd hbc (by simp)
          simp only [scalarCmp, hva, hvc, hst3, Bool.not_true, Bool.not_false,
            if_false, ite_false, ite_true]
          simp [cmpRet_lt_zero]
          exact hlt
        · have hst1' : a.sameType b = false := by simpa using hst1
          have hnames : b.tyName = c.tyName := sameType_names hst2
          simp only [scalarCmp, hva, hvb, hst1', Bool.not_true, Bool.not_false,
            if_false, ite_false, ite_true] at hab
          simp [cmpRet_lt_zero] at hab
          have hlt : strLt a.tyName c.tyName = true := by rw [← hnames]; exact hab
          have hst3 : a.sameType c = false := by
            by_contra hx
            have hx' : a.sameType c = true := by
              revert hx
              cases (a.sameType c) <;> simp
            have : a.tyName = c.tyName := sameType_names hx'
            rw [← this] at hnames
            rw [hnames] at hab
            rw [strLt_irrefl] at hab
            exact absurd hab (by simp)
          simp only [scalarCmp, hva, hvc, hst3, Bool.not_true, Bool.not_false,
            if_false, ite_false, ite_true]
          simp [cmpRet_lt_zero]
          exact hlt
        · have hst1' : a.sameType b = false := by simpa using hst1
          have hst2' : b.sameType c = false := by simpa using hst2
          simp only [scalarCmp, hva, hvb, hvc, hst1', hst2', Bool.not_true,
            Bool.not_false, if_false, ite_false, ite_true] at hab hbc
          simp [cmpRet_lt_zero] at hab hbc
          have hlt : strLt a.tyName c.tyName = true := strLt_trans hab hbc
          have hst3 : a.sameType c = false := by
            by_contra hx
            have hx' : a.sameType c = true := by
              revert hx
              cases (a.sameType c) <;> simp
            have hac : a.tyName = c.tyName := sameType_names hx'
            rw [hac] at hlt
            have := strLtChars_asymm hlt
            rw [strLt_irrefl] at hlt
            exact absurd hlt (by simp)
          simp only [scalarCmp, hva, hvc, hst3, Bool.not_true, Bool.not_false,
            if_false, ite_false, ite_true]
          simp [cmpRet_lt_zero]
          exact hlt

end GoTestdeep


namespace GoTestdeep

/-- C4: two same-type maps are ordered by length first (the shorter sorts
first regardless of content), and at equal lengths by storage identity
(their addresses), with no content-based tiebreak. -/
theorem claim_C4 (fuel : Nat) (h : Heap) (v : VisitedL) (ty : String)
    (ma la mb lb : Nat) (hnv : (ma, mb) ∉ v) :
    cmp (fuel+1) h v (.map ty ma la) (.map ty mb lb)
      = some ((if la < lb then -1 else if lb < la then 1
               else cmpRet (decide (ma < mb)) (decide (mb < ma))), (ma, mb) :: v) := by
  simp only [cmp, cmpBody, cmpBody, RValue.isValid, RValue.sameType, RValue.kind, RValue.tyName,
    visitedRecord, recordIdent, hnv, if_false, Bool.not_true, Bool.not_false,
    beq_self_eq_true, Bool.and_self, ite_false, ite_true]
  rcases Nat.lt_trichotomy la lb with hlt | heq | hgt
  · have : la ≠ lb := Nat.ne_of_lt hlt
    simp [this, hlt, cmpRet, Nat.not_lt.mpr (Nat.le_of_lt hlt)]
  · simp [heq, cmpRet]
  · have h1 : la ≠ lb := Nat.ne_of_gt hgt
    have h2 : ¬(la < lb) := Nat.not_lt.mpr (Nat.le_of_lt hgt)
    simp [h1, h2, hgt, cmpRet]

/-- C7: two same-type slices are compared element-wise up to the length of
the shorter slice (the zip of the takes), and when every compared element
pair is equal, the shorter slice sorts first. -/
theorem claim_C7 (fuel : Nat) (h : Heap) (v : VisitedL) (ty : String)
    (aa la ab lb : Nat) (hnv : (aa, ab) ∉ v) :
    (∀ (r : Int) (v'' : VisitedL),
      cmpList (cmp fuel h)
          (((h.lookupArr aa).take la).zip ((h.lookupArr ab).take lb)) ((aa, ab) :: v)
        = some (r, v'') →
      cmp (fuel+1) h v (.slice ty aa la) (.slice ty ab lb)
        = some (if r ≠ 0 then r else cmpRet (decide (la < lb)) (decide (lb < la)), v''))
    ∧ (la ≤ (h.lookupArr aa).length → lb ≤ (h.lookupArr ab).length →
        (((h.lookupArr aa).take la).zip ((h.lookupArr ab).take lb)).length = min la lb)
    ∧ (∀ v'' : VisitedL,
      cmpList (cmp fuel h)
          (((h.lookupArr aa).take la).zip ((h.lookupArr ab).take lb)) ((aa, ab) :: v)
        = some (0, v'') → la < lb →
      cmp (fuel+1) h v (.slice ty aa la) (.slice ty ab lb) = some (-1, v'')) := by
  have main : ∀ (r : Int) (v'' : VisitedL),
      cmpList (cmp fuel h)
          (((h.lookupArr aa).take la).zip ((h.lookupArr ab).take lb)) ((aa, ab) :: v)
        = some (r, v'') →
      cmp (fuel+1) h v (.slice ty aa la) (.slice ty ab lb)
        = some (if r ≠ 0 then r else cmpRet (decide (la < lb)) (decide (lb < la)), v'') := by
    intro r v'' hcl
    simp only [cmp, cmpBody, cmpBody, RValue.isValid, RValue.sameType, RValue.kind, RValue.tyName,
      visitedRecord, recordIdent, hnv, if_false, Bool.not_true, Bool.not_false,
      beq_self_eq_true, Bool.and_self, ite_false, ite_true]
    rw [hcl]
    simp
    by_cases hr : r = 0 <;> simp [hr]
  refine ⟨main, ?_, ?_⟩
  · intro h1 h2
    simp [List.length_zip, List.length_take]
    omega
  · intro v'' hcl hlt
    have := main 0 v'' hcl
    simpa [cmpRet, hlt] using this

/-- The heap of the slice intransitivity counterexample, realizing the Go
program `a := []int{0, 0, 7}; c := []int{0, 0}` with
`u := [][]int{a[0:2], a[0:3], []int{0}}`,
`v := [][]int{a[0:2], a[0:2], []int{1}}`,
`w := [][]int{c, a[0:2], []int{2}}`: address 1 backs `a`, address 2 backs
`c`, addresses 40/41/42 back the three singleton payloads, and addresses
30/31/32 back the outer slices.  `a[0:2]` and `a[0:3]` share the data
pointer 1 (Go sub-slices from index 0 keep the backing pointer) but differ
in length, so comparing them yields a nonzero verdict — unless the visited
guard has already recorded the pair (1, 1), which comparing `a[0:2]` with
itself at the first position does. -/
def sortCEHeap : Heap :=
  ⟨[(1, [RValue.int "int" 0, RValue.int "int" 0, RValue.int "int" 7]),
    (2, [RValue.int "int" 0, RValue.int "int" 0]),
    (40, [RValue.int "int" 0]), (41, [RValue.int "int" 1]), (42, [RValue.int "int" 2]),
    (30, [RValue.slice "[]int" 1 2, RValue.slice "[]int" 1 3, RValue.slice "[]int" 40 1]),
    (31, [RValue.slice "[]int" 1 2, RValue.slice "[]int" 1 2, RValue.slice "[]int" 41 1]),
    (32, [RValue.slice "[]int" 2 2, RValue.slice "[]int" 1 2, RValue.slice "[]int" 42 1])],
   []⟩

/-- `u` of `sortCEHeap`. -/
def sortCEu : RValue := .slice "[][]int" 30 3

/-- `v` of `sortCEHeap`. -/
def sortCEv : RValue := .slice "[][]int" 31 3

/-- `w` of `sortCEHeap`. -/
def sortCEw : RValue := .slice "[][]int" 32 3

/-- First value of the type-name-collision counterexample: Go's
`reflect.Type.String()` is documented not to be unique across types (two
packages with the same short name both render their `T` as `"x.T"`), and
`cmp` orders values of distinct types by that string alone, returning 0 on
a collision.  The three values model `[2]interface{}` arrays whose first
components hold values of two distinct types both rendered `"x.T"` (an
integer type and a boolean type). -/
def typeCEx : RValue :=
  .array "[2]interface {}" [.iface "interface {}" (some (.int "x.T" 1)),
    .iface "interface {}" (some (.int "int" 0))]

/-- See `typeCEx`. -/
def typeCEy : RValue :=
  .array "[2]interface {}" [.iface "interface {}" (some (.bool "x.T" true)),
    .iface "interface {}" (some (.int "int" 1))]

/-- See `typeCEx`. -/
def typeCEz : RValue :=
  .array "[2]interface {}" [.iface "interface {}" (some (.int "x.T" 0)),
    .iface "interface {}" (some (.int "int" 2))]

/-- C1 (counterexample): the comparator is not a strict weak ordering over
arbitrary values.  Three independent violations: (1) reflexivity fails on
NaN — on two NaN floats `cmp` returns -1, because `cmpFloat` tests its
first operand for NaN first.  (2) Transitivity fails on NaN-free slice
values: in `cmp u v`, comparing the first elements (the same sub-slice of
the same array) records the backing-pointer pair (1, 1) in the per-call
visited set, so the second elements `a[0:3]` vs `a[0:2]` — genuinely
unequal, sharing data pointer 1 — are guard-skipped as equal and the third
elements decide `u < v`; likewise `v < w`; but in `cmp u w` the first
elements record (1, 2) instead, the second elements are compared for real,
and `u > w`.  (3) Transitivity fails on NaN-free array values through the
documented non-uniqueness of `reflect.Type.String()`: values of two
distinct types with the same rendered name compare as 0, so `x < y` and
`y < z` are decided by the second components while `x` and `z`, whose first
components share a type, compare at the first and `x > z`. -/
theorem claim_C1_counterexample :
    (cmp 1 ⟨[], []⟩ [] (.float "float64" .nan) (.float "float64" .nan) = some (-1, [])
      ∧ (-1 : Int) ≠ 0)
    ∧ ((cmp 3 sortCEHeap [] sortCEu sortCEv).map Prod.fst = some (-1)
      ∧ (cmp 3 sortCEHeap [] sortCEv sortCEw).map Prod.fst = some (-1)
      ∧ (cmp 3 sortCEHeap [] sortCEu sortCEw).map Prod.fst = some 1)
    ∧ ((cmp 3 ⟨[], []⟩ [] typeCEx typeCEy).map Prod.fst = some (-1)
      ∧ (cmp 3 ⟨[], []⟩ [] typeCEy typeCEz).map Prod.fst = some (-1)
      ∧ (cmp 3 ⟨[], []⟩ [] typeCEx typeCEz).map Prod.fst = some 1) := by
  refine ⟨⟨by rfl, by decide⟩, ⟨?_, ?_, ?_⟩, ⟨?_, ?_, ?_⟩⟩ <;> decide

end GoTestdeep


namespace GoTestdeep

theorem cmpList_mono {step step' : VisitedL → RValue → RValue → Option (Int × VisitedL)}
    (hstep : ∀ v a b x, step v a b = some x → step' v a b = some x) :
    ∀ (l : List (RValue × RValue)) (v : VisitedL) (x : Int × VisitedL),
      cmpList step l v = some x → cmpList step' l v = some x := by
  intro l
  induction l with
  | nil => intro v x hc; simpa [cmpList] using hc
  | cons p ps ih =>
    intro v x hc
    rw [cmpList] at hc ⊢
    cases hp : step v p.1 p.2 with
    | none => rw [hp] at hc; simp at hc
    | some rv =>
      rw [hp] at hc
      rw [hstep v p.1 p.2 rv hp]
      obtain ⟨r, v'⟩ := rv
      by_cases hr : r = 0
      · subst hr
        simp at hc ⊢
        exact ih v' x hc
      · simpa [hr] using hc

theorem cmpBody_mono {h : Heap}
    {step step' : VisitedL → RValue → RValue → Option (Int × VisitedL)}
    (hstep : ∀ v a b x, step v a b = some x → step' v a b = some x) :
    ∀ (v : VisitedL) (a b : RValue) (x : Int × VisitedL),
      cmpBody step h v a b = some x → cmpBody step' h v a b = some x := by
  intro v a b x hc
  cases a <;> cases b <;>
    simp only [cmpBody, RValue.isValid, visitedRecord, recordIdent, Bool.not_true,
      Bool.not_false, if_false, ite_true, ite_false] at hc ⊢ <;>
    (try exact hc)
  case array.array tya ea tyb eb =>
    by_cases hst : (RValue.array tya ea).sameType (RValue.array tyb eb) = true
    · simp only [hst, Bool.not_true, Bool.false_eq_true, if_false] at hc ⊢
      exact cmpList_mono hstep _ _ _ hc
    · have hst' : (RValue.array tya ea).sameType (RValue.array tyb eb) = false := by
        simpa using hst
      simp only [hst', Bool.not_false, if_true] at hc ⊢
      exact hc
  case struct.struct tya fa tyb fb =>
    by_cases hst : (RValue.struct tya fa).sameType (RValue.struct tyb fb) = true
    · simp only [hst, Bool.not_true, Bool.false_eq_true, if_false] at hc ⊢
      exact cmpList_mono hstep _ _ _ hc
    · have hst' : (RValue.struct tya fa).sameType (RValue.struct tyb fb) = false := by
        simpa using hst
      simp only [hst', Bool.not_false, if_true] at hc ⊢
      exact hc
  case iface.iface tya oa tyb ob =>
    by_cases hst : (RValue.iface tya oa).sameType (RValue.iface tyb ob) = true
    · simp only [hst, Bool.not_true, Bool.false_eq_true, if_false] at hc ⊢
      cases oa <;> cases ob <;> (try exact hc)
      exact hstep _ _ _ _ hc
    · have hst' : (RValue.iface tya oa).sameType (RValue.iface tyb ob) = false := by
        simpa using hst
      simp only [hst', Bool.not_false, if_true] at hc ⊢
      exact hc
  case slice.slice tya aa la tyb ab lb =>
    by_cases hst : (RValue.slice tya aa la).sameType (RValue.slice tyb ab lb) = true
    · simp only [hst, Bool.not_true, Bool.false_eq_true, if_false] at hc ⊢
      by_cases hv : (aa, ab) ∈ v
      · simp only [hv, if_true, ite_true] at hc ⊢
        exact hc
      · simp only [hv, if_false, ite_false] at hc ⊢
        cases hcl : cmpList step
            (((h.lookupArr aa).take la).zip ((h.lookupArr ab).take lb)) ((aa, ab) :: v) with
        | none => rw [hcl] at hc; simp at hc
        | some rv =>
          rw [hcl] at hc
          rw [cmpList_mono hstep _ _ _ hcl]
          exact hc
    · have hst' : (RValue.slice tya aa la).sameType (RValue.slice tyb ab lb) = false := by
        simpa using hst
      simp only [hst', Bool.not_false, if_true] at hc ⊢
      exact hc
  case ptr.ptr tya pa tyb pb =>
    by_cases hst : (RValue.ptr tya pa).sameType (RValue.ptr tyb pb) = true
    · simp only [hst, Bool.not_true, Bool.false_eq_true, if_false] at hc ⊢
      by_cases hv : (pa, pb) ∈ v
      · simp only [hv, if_true, ite_true] at hc ⊢
        exact hc
      · simp only [hv, if_false, ite_false] at hc ⊢
        by_cases h1 : pa = pb
        · simp only [h1, if_true, ite_true] at hc ⊢
          exact hc
        · by_cases h2 : pa = 0
          · simp only [h1, h2, if_true, ite_true, if_false, ite_false] at hc ⊢
            exact hc
          · by_cases h3 : pb = 0
            · simp only [h1, h2, h3, if_true, ite_true, if_false, ite_false] at hc ⊢
              exact hc
            · simp only [h1, h2, h3, if_false, ite_false] at hc ⊢
              exact hstep _ _ _ _ hc
    · have hst' : (RValue.ptr tya pa).sameType (RValue.ptr tyb pb) = false := by
        simpa using hst
      simp only [hst', Bool.not_false, if_true] at hc ⊢
      exact hc

theorem cmp_mono : ∀ (n : Nat) (h : Heap) (v : VisitedL) (a b : RValue) (x : Int × VisitedL),
    cmp n h v a b = some x → cmp (n+1) h v a b = some x := by
  intro n
  induction n with
  | zero => intro h v a b x hc; simp [cmp] at hc
  | succ n ih =>
    intro h v a b x hc
    rw [cmp] at hc ⊢
    exact cmpBody_mono (ih h) v a b x hc

theorem cmp_mono_le {n m : Nat} (hnm : n ≤ m) (h : Heap) (v : VisitedL) (a b : RValue)
    (x : Int × VisitedL) (hc : cmp n h v a b = some x) : cmp m h v a b = some x := by
  induction m with
  | zero =>
    have : n = 0 := by omega
    subst this
    exact hc
  | succ m ihm =>
    by_cases he : n = m + 1
    · subst he; exact hc
    · have : n ≤ m := by omega
      exact cmp_mono m h v a b x (ihm this)

end GoTestdeep


namespace GoTestdeep

theorem cmpList_visited_sub
    {step : VisitedL → RValue → RValue → Option (Int × VisitedL)}
    (hstep : ∀ v a b r v', step v a b = some (r, v') → ∀ q ∈ v, q ∈ v') :
    ∀ (l : List (RValue × RValue)) (v : VisitedL) (r : Int) (v' : VisitedL),
      cmpList step l v = some (r, v') → ∀ q ∈ v, q ∈ v' := by
  intro l
  induction l with
  | nil =>
    intro v r v' hc
    simp [cmpList] at hc
    rw [← hc.2]
    exact fun q hq => hq
  | cons p ps ih =>
    intro v r v' hc
    rw [cmpList] at hc
    cases hp : step v p.1 p.2 with
    | none => rw [hp] at hc; simp at hc
    | some rv =>
      obtain ⟨r1, v1⟩ := rv
      rw [hp] at hc
      by_cases hr : r1 = 0
      · subst hr
        simp at hc
        intro q hq
        exact ih v1 r v' hc q (hstep v p.1 p.2 0 v1 hp q hq)
      · simp [hr] at hc
        intro q hq
        rw [← hc.2]
        exact hstep v p.1 p.2 r1 v1 hp q hq

theorem cmpBody_visited_sub {h : Heap}
    {step : VisitedL → RValue → RValue → Option (Int × VisitedL)}
    (hstep : ∀ v a b r v', step v a b = some (r, v') → ∀ q ∈ v, q ∈ v') :
    ∀ (v : VisitedL) (a b : RValue) (r : Int) (v' : VisitedL),
      cmpBody step h v a b = some (r, v') → ∀ q ∈ v, q ∈ v' := by
  intro v a b r v' hc
  cases a <;> cases b <;>
    simp only [cmpBody, RValue.isValid, visitedRecord, recordIdent, Bool.not_true,
      Bool.not_false, if_false, ite_true, ite_false] at hc <;>
    (try (first
      | (simp at hc; rw [← hc.2]; exact fun q hq => hq)
      | ((split at hc <;> try split at hc <;> try split at hc <;> try split at hc) <;>
          first
            | (simp only [Option.some.injEq, Prod.mk.injEq] at hc; rw [← hc.2];
                exact fun q hq => hq)
            | (exact Option.noConfusion hc)
            | (exfalso; simp_all [RValue.sameType, RValue.kind]; done))))
  case array.array tya ea tyb eb =>
    by_cases hst : (RValue.array tya ea).sameType (RValue.array tyb eb) = true
    · simp only [hst, Bool.not_true, Bool.false_eq_true, if_false] at hc
      exact cmpList_visited_sub hstep _ _ _ _ hc
    · have hst' : (RValue.array tya ea).sameType (RValue.array tyb eb) = false := by
        simpa using hst
      simp only [hst', Bool.not_false, if_true] at hc
      simp at hc
      rw [← hc.2]
      exact fun q hq => hq
  case struct.struct tya fa tyb fb =>
    by_cases hst : (RValue.struct tya fa).sameType (RValue.struct tyb fb) = true
    · simp only [hst, Bool.not_true, Bool.false_eq_true, if_false] at hc
      exact cmpList_visited_sub hstep _ _ _ _ hc
    · have hst' : (RValue.struct tya fa).sameType (RValue.struct tyb fb) = false := by
        simpa using hst
      simp only [hst', Bool.not_false, if_true] at hc
      simp at hc
      rw [← hc.2]
      exact fun q hq => hq
  case iface.iface tya oa tyb ob =>
    by_cases hst : (RValue.iface tya oa).sameType (RValue.iface tyb ob) = true
    · simp only [hst, Bool.not_true, Bool.false_eq_true, if_false] at hc
      cases oa <;> cases ob <;>
        (try (simp at hc; rw [← hc.2]; exact fun q hq => hq))
      exact hstep _ _ _ _ _ hc
    · have hst' : (RValue.iface tya oa).sameType (RValue.iface tyb ob) = false := by
        simpa using hst
      simp only [hst', Bool.not_false, if_true] at hc
      simp at hc
      rw [← hc.2]
      exact fun q hq => hq
  case slice.slice tya aa la tyb ab lb =>
    by_cases hst : (RValue.slice tya aa la).sameType (RValue.slice tyb ab lb) = true
    · simp only [hst, Bool.not_true, Bool.false_eq_true, if_false] at hc
      by_cases hv : (aa, ab) ∈ v
      · simp only [hv, if_true, ite_true] at hc
        simp at hc
        rw [← hc.2]
        exact fun q hq => hq
      · simp only [hv, if_false, ite_false] at hc
        have hv1 : ∀ q ∈ v, q ∈ (aa, ab) :: v :=
          fun q hq => List.mem_cons_of_mem _ hq
        cases hcl : cmpList step
            (((h.lookupArr aa).take la).zip ((h.lookupArr ab).take lb)) ((aa, ab) :: v) with
        | none => rw [hcl] at hc; simp at hc
        | some rv2 =>
          obtain ⟨r2, v2⟩ := rv2
          rw [hcl] at hc
          have hv2 : ∀ q ∈ v, q ∈ v2 :=
            fun q hq => cmpList_visited_sub hstep _ _ _ _ hcl q (hv1 q hq)
          by_cases hr2 : r2 = 0
          · subst hr2
            simp at hc
            rw [← hc.2]
            exact hv2
          · simp [hr2] at hc
            rw [← hc.2]
            exact hv2
    · have hst' : (RValue.slice tya aa la).sameType (RValue.slice tyb ab lb) = false := by
        simpa using hst
      simp only [hst', Bool.not_false, if_true] at hc
      simp at hc
      rw [← hc.2]
      exact fun q hq => hq
  case ptr.ptr tya pa tyb pb =>
    by_cases hst : (RValue.ptr tya pa).sameType (RValue.ptr tyb pb) = true
    · simp only [hst, Bool.not_true, Bool.false_eq_true, if_false] at hc
      by_cases hv : (pa, pb) ∈ v
      · simp only [hv, if_true, ite_true] at hc
        simp at hc
        rw [← hc.2]
        exact fun q hq => hq
      · simp only [hv, if_false, ite_false] at hc
        have hv1 : ∀ q ∈ v, q ∈ (pa, pb) :: v :=
          fun q hq => List.mem_cons_of_mem _ hq
        by_cases h1 : pa = pb
        · subst h1
          simp at hc
          rw [← hc.2]
          exact hv1
        · by_cases h2 : pa = 0
          · subst h2
            simp [h1, Ne.symm h1] at hc
            rw [← hc.2]
            exact hv1
          · by_cases h3 : pb = 0
            · subst h3
              simp [h1, h2] at hc
              rw [← hc.2]
              exact hv1
            · simp [h1, h2, h3] at hc
              exact fun q hq => hstep _ _ _ _ _ hc q (hv1 q hq)
    · have hst' : (RValue.ptr tya pa).sameType (RValue.ptr tyb pb) = false := by
        simpa using hst
      simp only [hst', Bool.not_false, if_true] at hc
      simp at hc
      rw [← hc.2]
      exact fun q hq => hq
  case map.map tya ma la tyb mb lb =>
    by_cases hst : (RValue.map tya ma la).sameType (RValue.map tyb mb lb) = true
    · simp only [hst, Bool.not_true, Bool.false_eq_true, if_false] at hc
      by_cases hv : (ma, mb) ∈ v
      · simp only [hv, if_true, ite_true] at hc
        simp at hc
        rw [← hc.2]
        exact fun q hq => hq
      · simp only [hv, if_false, ite_false] at hc
        have hv1 : ∀ q ∈ v, q ∈ (ma, mb) :: v :=
          fun q hq => List.mem_cons_of_mem _ hq
        by_cases hle : la = lb <;> simp [hle] at hc <;> (rw [← hc.2]; exact hv1)
    · have hst' : (RValue.map tya ma la).sameType (RValue.map tyb mb lb) = false := by
        simpa using hst
      simp only [hst', Bool.not_false, if_true] at hc
      simp at hc
      rw [← hc.2]
      exact fun q hq => hq

theorem cmp_visited_sub :
    ∀ (n : Nat) (h : Heap) (v : VisitedL) (a b : RValue) (r : Int) (v' : VisitedL),
      cmp n h v a b = some (r, v') → ∀ q ∈ v, q ∈ v' := by
  intro n
  induction n with
  | zero => intro h v a b r v' hc; simp [cmp] at hc
  | succ n ih =>
    intro h v a b r v' hc
    rw [cmp] at hc
    exact cmpBody_visited_sub (fun w x y rr ww hw => ih h w x y rr ww hw) v a b r v' hc

end GoTestdeep


namespace GoTestdeep

theorem foldr_union_mem {α : Type} (f : α → Finset Nat) :
    ∀ (l : List α) (x : α), x ∈ l → f x ⊆ l.foldr (fun p s => f p ∪ s) ∅ := by
  intro l
  induction l with
  | nil => intro x hx; simp at hx
  | cons y ys ih =>
    intro x hx
    rcases List.mem_cons.mp hx with he | hm
    · subst he
      simp only [List.foldr]
      exact Finset.subset_union_left
    · simp only [List.foldr]
      exact (ih x hm).trans Finset.subset_union_right

theorem listAddrs_mem {x : RValue} : ∀ {l : List RValue}, x ∈ l →
    addrsOf x ⊆ listAddrs l := by
  intro l
  induction l with
  | nil => intro hx; simp at hx
  | cons y ys ih =>
    intro hx
    rcases List.mem_cons.mp hx with he | hm
    · subst he
      rw [listAddrs]
      exact Finset.subset_union_left
    · rw [listAddrs]
      exact (ih hm).trans Finset.subset_union_right

theorem lookupArr_addrs {h : Heap} {addr : Nat} {x : RValue}
    (hx : x ∈ h.lookupArr addr) : addrsOf x ⊆ h.allAddrs := by
  unfold Heap.lookupArr at hx
  cases hl : h.arrs.lookup addr with
  | none => rw [hl] at hx; simp at hx
  | some l =>
    rw [hl] at hx
    simp at hx
    have hmem : (addr, l) ∈ h.arrs := lookupMem hl
    have h1 : addrsOf x ⊆ listAddrs l := listAddrs_mem hx
    have h2 : listAddrs l ⊆ h.arrs.foldr (fun p s => listAddrs p.2 ∪ s) ∅ :=
      foldr_union_mem (fun p => listAddrs p.2) h.arrs (addr, l) hmem
    unfold Heap.allAddrs
    exact h1.trans (h2.trans Finset.subset_union_left)

theorem lookupPtr_addrs {h : Heap} {addr : Nat} :
    addrsOf (h.lookupPtr addr) ⊆ h.allAddrs := by
  unfold Heap.lookupPtr
  cases hl : h.ptrs.lookup addr with
  | none => simp [addrsOf]
  | some x =>
    simp only [Option.getD_some]
    have hmem : (addr, x) ∈ h.ptrs := lookupMem hl
    have h2 : addrsOf x ⊆ h.ptrs.foldr (fun p s => addrsOf p.2 ∪ s) ∅ :=
      foldr_union_mem (fun p => addrsOf p.2) h.ptrs (addr, x) hmem
    unfold Heap.allAddrs
    exact h2.trans Finset.subset_union_right

theorem recordIdent_addrs {a : RValue} {i : Nat} (h : recordIdent a = some i) :
    i ∈ addrsOf a := by
  cases a <;> simp [recordIdent] at h <;> simp [addrsOf, ← h]

theorem baseSet_mono {h : Heap} {a b a' b' : RValue}
    (ha : addrsOf a' ⊆ h.allAddrs ∪ addrsOf a ∪ addrsOf b)
    (hb : addrsOf b' ⊆ h.allAddrs ∪ addrsOf a ∪ addrsOf b) :
    h.allAddrs ∪ addrsOf a' ∪ addrsOf b' ⊆ h.allAddrs ∪ addrsOf a ∪ addrsOf b := by
  intro x hx
  rcases Finset.mem_union.mp hx with hx1 | hx2
  · rcases Finset.mem_union.mp hx1 with hx3 | hx4
    · exact Finset.mem_union_left _ (Finset.mem_union_left _ hx3)
    · exact ha hx4
  · exact hb hx2

theorem pairUniv_mono {h : Heap} {a b a' b' : RValue}
    (ha : addrsOf a' ⊆ h.allAddrs ∪ addrsOf a ∪ addrsOf b)
    (hb : addrsOf b' ⊆ h.allAddrs ∪ addrsOf a ∪ addrsOf b) :
    pairUniv h a' b' ⊆ pairUniv h a b := by
  unfold pairUniv
  exact Finset.product_subset_product (baseSet_mono ha hb) (baseSet_mono ha hb)

theorem cmpMeasure_le {h : Heap} {v w : VisitedL} {a b a' b' : RValue}
    (hU : pairUniv h a' b' ⊆ pairUniv h a b)
    (hv : ∀ q ∈ v, q ∈ w) :
    cmpMeasure h w a' b' ≤ cmpMeasure h v a b := by
  unfold cmpMeasure
  apply Finset.card_le_card
  intro p hp
  simp only [Finset.mem_filter] at hp ⊢
  exact ⟨hU hp.1, fun hpv => hp.2 (hv p hpv)⟩

theorem cmpMeasure_lt_record {h : Heap} {v : VisitedL} {a b a' b' : RValue} {ia ib : Nat}
    (hia : ia ∈ h.allAddrs ∪ addrsOf a ∪ addrsOf b)
    (hib : ib ∈ h.allAddrs ∪ addrsOf a ∪ addrsOf b)
    (hnv : (ia, ib) ∉ v)
    (hU : pairUniv h a' b' ⊆ pairUniv h a b) :
    cmpMeasure h ((ia, ib) :: v) a' b' < cmpMeasure h v a b := by
  unfold cmpMeasure
  have hmem : (ia, ib) ∈ (pairUniv h a b).filter (fun p => p ∉ v) := by
    simp only [Finset.mem_filter, pairUniv, Finset.mem_product]
    exact ⟨⟨hia, hib⟩, hnv⟩
  have hsub : (pairUniv h a' b').filter (fun p => p ∉ (ia, ib) :: v)
      ⊆ ((pairUniv h a b).filter (fun p => p ∉ v)).erase (ia, ib) := by
    intro p hp
    simp only [Finset.mem_filter, List.mem_cons, not_or] at hp
    simp only [Finset.mem_erase, Finset.mem_filter]
    exact ⟨hp.2.1, hU hp.1, hp.2.2⟩
  calc ((pairUniv h a' b').filter (fun p => p ∉ (ia, ib) :: v)).card
      ≤ (((pairUniv h a b).filter (fun p => p ∉ v)).erase (ia, ib)).card :=
        Finset.card_le_card hsub
    _ < ((pairUniv h a b).filter (fun p => p ∉ v)).card :=
        Finset.card_erase_lt_of_mem hmem

end GoTestdeep


namespace GoTestdeep

theorem cmpList_progress (h : Heap) :
    ∀ (l : List (RValue × RValue)) (v0 : VisitedL),
      (∀ p ∈ l, ∀ w : VisitedL, (∀ q ∈ v0, q ∈ w) → ∃ n, (cmp n h w p.1 p.2).isSome) →
      ∀ w : VisitedL, (∀ q ∈ v0, q ∈ w) → ∃ n, (cmpList (cmp n h) l w).isSome := by
  intro l
  induction l with
  | nil =>
    intro v0 _ w _
    exact ⟨0, by simp [cmpList]⟩
  | cons p ps ih =>
    intro v0 hterm w hw
    obtain ⟨n1, h1⟩ := hterm p (by simp) w hw
    rw [Option.isSome_iff_exists] at h1
    obtain ⟨⟨r, w'⟩, hc1⟩ := h1
    by_cases hr : r = 0
    · subst hr
      have hw' : ∀ q ∈ v0, q ∈ w' :=
        fun q hq => cmp_visited_sub n1 h w p.1 p.2 0 w' hc1 q (hw q hq)
      obtain ⟨n2, h2⟩ := ih v0 (fun q hq => hterm q (by simp [hq])) w' hw'
      rw [Option.isSome_iff_exists] at h2
      obtain ⟨x2, hc2⟩ := h2
      refine ⟨max n1 n2, ?_⟩
      rw [cmpList]
      rw [cmp_mono_le (le_max_left n1 n2) h w p.1 p.2 _ hc1]
      have hx2 := cmpList_mono
        (fun v a b x hx => cmp_mono_le (le_max_right n1 n2) h v a b x hx) ps w' x2 hc2
      simp [hx2]
    · refine ⟨n1, ?_⟩
      rw [cmpList, hc1]
      simp [hr]

end GoTestdeep


namespace GoTestdeep

theorem cmp_succ (n : Nat) (h : Heap) (v : VisitedL) (a b : RValue) :
    cmp (n+1) h v a b = cmpBody (cmp n h) h v a b := by
  rw [cmp]

theorem cmp_progress (h : Heap) :
    ∀ (K s : Nat) (a : RValue), sizeOf a ≤ s →
      ∀ (b : RValue) (v : VisitedL), cmpMeasure h v a b ≤ K →
        ∃ n, (cmp n h v a b).isSome := by
  intro K
  induction K using Nat.strong_induction_on with
  | _ K ihK =>
  intro s
  induction s using Nat.strong_induction_on with
  | _ s ihs =>
  intro a hsa b v hK
  by_cases hva : a.isValid = true
  · by_cases hvb : b.isValid = true
    · by_cases hst : a.sameType b = true
      · rcases hrec : visitedRecord v a b with ⟨recb, v1⟩
        cases recb
        · cases a <;> cases b <;>
            (try (first
              | (exfalso; revert hst; simp [RValue.sameType, RValue.kind]; done)
              | (refine ⟨0+1, ?_⟩
                 rw [cmp_succ]
                 simp [cmpBody, RValue.isValid, hst, hrec]
                 (try (split <;> simp))
                 done)))
          next tya ea tyb eb =>
            have hx := hrec
            simp only [visitedRecord, recordIdent] at hx
            simp at hx
            subst hx
            have hlp : ∀ p ∈ ea.zip eb, ∀ w : VisitedL, (∀ q ∈ v, q ∈ w) →
                ∃ n, (cmp n h w p.1 p.2).isSome := by
              intro p hp w hw
              have hpa : p.1 ∈ ea := (List.of_mem_zip hp).1
              have hpb : p.2 ∈ eb := (List.of_mem_zip hp).2
              have hsz : sizeOf p.1 < sizeOf (RValue.array tya ea) := by
                have hm1 := List.sizeOf_lt_of_mem hpa
                (try simp +arith [RValue._sizeOf_1] at hm1 ⊢)
                (try omega)
              have hU : pairUniv h p.1 p.2
                  ⊆ pairUniv h (RValue.array tya ea) (RValue.array tyb eb) := by
                apply pairUniv_mono
                · intro x hx2
                  apply Finset.mem_union_left
                  apply Finset.mem_union_right
                  have hx3 : x ∈ listAddrs ea := listAddrs_mem hpa hx2
                  simpa [addrsOf] using hx3
                · intro x hx2
                  apply Finset.mem_union_right
                  have hx3 : x ∈ listAddrs eb := listAddrs_mem hpb hx2
                  simpa [addrsOf] using hx3
              have hm : cmpMeasure h w p.1 p.2 ≤ K :=
                le_trans (cmpMeasure_le hU hw) hK
              exact ihs (sizeOf p.1) (lt_of_lt_of_le hsz hsa) p.1 le_rfl p.2 w hm
            obtain ⟨n, hn⟩ := cmpList_progress h (ea.zip eb) v hlp v (fun q hq => hq)
            refine ⟨n+1, ?_⟩
            rw [cmp_succ]
            have hred : cmpBody (cmp n h) h v (RValue.array tya ea) (RValue.array tyb eb)
                = cmpList (cmp n h) (ea.zip eb) v := by
              simp [cmpBody, RValue.isValid, hst, visitedRecord, recordIdent]
            rw [hred]
            exact hn
          next tya aa la tyb ab lb =>
            have hx := hrec
            simp only [visitedRecord, recordIdent] at hx
            by_cases hvv : (aa, ab) ∈ v
            · rw [if_pos hvv] at hx
              simp at hx
            · rw [if_neg hvv] at hx
              simp at hx
              subst hx
              have hlp : ∀ p ∈ ((h.lookupArr aa).take la).zip ((h.lookupArr ab).take lb),
                  ∀ w : VisitedL, (∀ q ∈ (aa, ab) :: v, q ∈ w) →
                    ∃ n, (cmp n h w p.1 p.2).isSome := by
                intro p hp w hw
                have hpa : p.1 ∈ h.lookupArr aa :=
                  List.mem_of_mem_take (List.of_mem_zip hp).1
                have hpb : p.2 ∈ h.lookupArr ab :=
                  List.mem_of_mem_take (List.of_mem_zip hp).2
                have hU : pairUniv h p.1 p.2
                    ⊆ pairUniv h (RValue.slice tya aa la) (RValue.slice tyb ab lb) := by
                  apply pairUniv_mono
                  · intro x hx2
                    exact Finset.mem_union_left _
                      (Finset.mem_union_left _ (lookupArr_addrs hpa hx2))
                  · intro x hx2
                    exact Finset.mem_union_left _
                      (Finset.mem_union_left _ (lookupArr_addrs hpb hx2))
                have hia : aa ∈ h.allAddrs ∪ addrsOf (RValue.slice tya aa la)
                    ∪ addrsOf (RValue.slice tyb ab lb) := by
                  apply Finset.mem_union_left
                  apply Finset.mem_union_right
                  simp [addrsOf]
                have hib : ab ∈ h.allAddrs ∪ addrsOf (RValue.slice tya aa la)
                    ∪ addrsOf (RValue.slice tyb ab lb) := by
                  apply Finset.mem_union_right
                  simp [addrsOf]
                have hlt : cmpMeasure h w p.1 p.2
                    < cmpMeasure h v (RValue.slice tya aa la) (RValue.slice tyb ab lb) :=
                  lt_of_le_of_lt (cmpMeasure_le (Finset.Subset.refl _) hw)
                    (cmpMeasure_lt_record hia hib hvv hU)
                exact ihK (cmpMeasure h w p.1 p.2) (lt_of_lt_of_le hlt hK)
                  (sizeOf p.1) p.1 le_rfl p.2 w le_rfl
              obtain ⟨n, hn⟩ := cmpList_progress h
                (((h.lookupArr aa).take la).zip ((h.lookupArr ab).take lb))
                ((aa, ab) :: v) hlp ((aa, ab) :: v) (fun q hq => hq)
              rw [Option.isSome_iff_exists] at hn
              obtain ⟨⟨rl, vl⟩, hnl⟩ := hn
              refine ⟨n+1, ?_⟩
              rw [cmp_succ]
              have hred : cmpBody (cmp n h) h v
                  (RValue.slice tya aa la) (RValue.slice tyb ab lb)
                  = if rl ≠ 0 then some (rl, vl)
                    else some (cmpRet (decide (la < lb)) (decide (lb < la)), vl) := by
                simp [cmpBody, RValue.isValid, hst, visitedRecord, recordIdent, hvv, hnl]
              rw [hred]
              split <;> simp
          next tya oa tyb ob =>
            have hx := hrec
            simp only [visitedRecord, recordIdent] at hx
            simp at hx
            subst hx
            cases oa with
            | none =>
              cases ob <;>
                (refine ⟨0+1, ?_⟩
                 rw [cmp_succ]
                 simp [cmpBody, RValue.isValid, hst, visitedRecord, recordIdent])
            | some xa =>
              cases ob with
              | none =>
                refine ⟨0+1, ?_⟩
                rw [cmp_succ]
                simp [cmpBody, RValue.isValid, hst, visitedRecord, recordIdent]
              | some xb =>
                have hsz : sizeOf xa < sizeOf (RValue.iface tya (some xa)) := by
                  (try simp +arith [RValue._sizeOf_1])
                  (try omega)
                have hU : pairUniv h xa xb
                    ⊆ pairUniv h (RValue.iface tya (some xa)) (RValue.iface tyb (some xb)) := by
                  apply pairUniv_mono
                  · intro x hx2
                    apply Finset.mem_union_left
                    apply Finset.mem_union_right
                    simpa [addrsOf] using hx2
                  · intro x hx2
                    apply Finset.mem_union_right
                    simpa [addrsOf] using hx2
                have hm : cmpMeasure h v xa xb ≤ K :=
                  le_trans (cmpMeasure_le hU (fun q hq => hq)) hK
                obtain ⟨n, hn⟩ := ihs (sizeOf xa) (lt_of_lt_of_le hsz hsa) xa le_rfl xb v hm
                refine ⟨n+1, ?_⟩
                rw [cmp_succ]
                have hred : cmpBody (cmp n h) h v
                    (RValue.iface tya (some xa)) (RValue.iface tyb (some xb))
                    = cmp n h v xa xb := by
                  simp [cmpBody, RValue.isValid, hst, visitedRecord, recordIdent]
                rw [hred]
                exact hn
          next tya fa tyb fb =>
            have hx := hrec
            simp only [visitedRecord, recordIdent] at hx
            simp at hx
            subst hx
            have hlp : ∀ p ∈ fa.zip fb, ∀ w : VisitedL, (∀ q ∈ v, q ∈ w) →
                ∃ n, (cmp n h w p.1 p.2).isSome := by
              intro p hp w hw
              have hpa : p.1 ∈ fa := (List.of_mem_zip hp).1
              have hpb : p.2 ∈ fb := (List.of_mem_zip hp).2
              have hsz : sizeOf p.1 < sizeOf (RValue.struct tya fa) := by
                have hm1 := List.sizeOf_lt_of_mem hpa
                (try simp +arith [RValue._sizeOf_1] at hm1 ⊢)
                (try omega)
              have hU : pairUniv h p.1 p.2
                  ⊆ pairUniv h (RValue.struct tya fa) (RValue.struct tyb fb) := by
                apply pairUniv_mono
                · intro x hx2
                  apply Finset.mem_union_left
                  apply Finset.mem_union_right
                  have hx3 : x ∈ listAddrs fa := listAddrs_mem hpa hx2
                  simpa [addrsOf] using hx3
                · intro x hx2
                  apply Finset.mem_union_right
                  have hx3 : x ∈ listAddrs fb := listAddrs_mem hpb hx2
                  simpa [addrsOf] using hx3
              have hm : cmpMeasure h w p.1 p.2 ≤ K :=
                le_trans (cmpMeasure_le hU hw) hK
              exact ihs (sizeOf p.1) (lt_of_lt_of_le hsz hsa) p.1 le_rfl p.2 w hm
            obtain ⟨n, hn⟩ := cmpList_progress h (fa.zip fb) v hlp v (fun q hq => hq)
            refine ⟨n+1, ?_⟩
            rw [cmp_succ]
            have hred : cmpBody (cmp n h) h v (RValue.struct tya fa) (RValue.struct tyb fb)
                = cmpList (cmp n h) (fa.zip fb) v := by
              simp [cmpBody, RValue.isValid, hst, visitedRecord, recordIdent]
            rw [hred]
            exact hn
          next tya pa tyb pb =>
            have hx := hrec
            simp only [visitedRecord, recordIdent] at hx
            by_cases hvv : (pa, pb) ∈ v
            · rw [if_pos hvv] at hx
              simp at hx
            · rw [if_neg hvv] at hx
              simp at hx
              subst hx
              by_cases h1 : pa = pb
              · refine ⟨0+1, ?_⟩
                rw [cmp_succ]
                simp [cmpBody, RValue.isValid, hst, visitedRecord, recordIdent, hvv, h1]
                (try (split <;> (try split) <;> (try split) <;> simp))
              · by_cases h2 : pa = 0
                · refine ⟨0+1, ?_⟩
                  rw [cmp_succ]
                  simp [cmpBody, RValue.isValid, hst, visitedRecord, recordIdent, hvv, h1, h2]
                  (try (split <;> (try split) <;> (try split) <;> simp))
                · by_cases h3 : pb = 0
                  · refine ⟨0+1, ?_⟩
                    rw [cmp_succ]
                    simp [cmpBody, RValue.isValid, hst, visitedRecord, recordIdent,
                      hvv, h1, h2, h3]
                    (try (split <;> (try split) <;> (try split) <;> simp))
                  · have hia : pa ∈ h.allAddrs ∪ addrsOf (RValue.ptr tya pa)
                        ∪ addrsOf (RValue.ptr tyb pb) := by
                      apply Finset.mem_union_left
                      apply Finset.mem_union_right
                      simp [addrsOf]
                    have hib : pb ∈ h.allAddrs ∪ addrsOf (RValue.ptr tya pa)
                        ∪ addrsOf (RValue.ptr tyb pb) := by
                      apply Finset.mem_union_right
                      simp [addrsOf]
                    have hU : pairUniv h (h.lookupPtr pa) (h.lookupPtr pb)
                        ⊆ pairUniv h (RValue.ptr tya pa) (RValue.ptr tyb pb) := by
                      apply pairUniv_mono
                      · intro x hx2
                        exact Finset.mem_union_left _
                          (Finset.mem_union_left _ (lookupPtr_addrs hx2))
                      · intro x hx2
                        exact Finset.mem_union_left _
                          (Finset.mem_union_left _ (lookupPtr_addrs hx2))
                    have hlt : cmpMeasure h ((pa, pb) :: v) (h.lookupPtr pa) (h.lookupPtr pb)
                        < cmpMeasure h v (RValue.ptr tya pa) (RValue.ptr tyb pb) :=
                      cmpMeasure_lt_record hia hib hvv hU
                    obtain ⟨n, hn⟩ := ihK
                      (cmpMeasure h ((pa, pb) :: v) (h.lookupPtr pa) (h.lookupPtr pb))
                      (lt_of_lt_of_le hlt hK) (sizeOf (h.lookupPtr pa)) (h.lookupPtr pa)
                      le_rfl (h.lookupPtr pb) ((pa, pb) :: v) le_rfl
                    refine ⟨n+1, ?_⟩
                    rw [cmp_succ]
                    have hred : cmpBody (cmp n h) h v (RValue.ptr tya pa) (RValue.ptr tyb pb)
                        = cmp n h ((pa, pb) :: v) (h.lookupPtr pa) (h.lookupPtr pb) := by
                      simp [cmpBody, RValue.isValid, hst, visitedRecord, recordIdent,
                        hvv, h1, h2, h3]
                    rw [hred]
                    exact hn
        · refine ⟨0+1, ?_⟩
          rw [cmp_succ]
          simp [cmpBody, hva, hvb, hst, hrec]
      · have hst' : a.sameType b = false := by simpa using hst
        refine ⟨0+1, ?_⟩
        rw [cmp_succ]
        simp [cmpBody, hva, hvb, hst']
    · have hvb' : b.isValid = false := by simpa using hvb
      refine ⟨0+1, ?_⟩
      rw [cmp_succ]
      simp [cmpBody, hva, hvb']
  · have hva' : a.isValid = false := by simpa using hva
    refine ⟨0+1, ?_⟩
    rw [cmp_succ]
    simp [cmpBody, hva']
    (try (split <;> simp))

end GoTestdeep


namespace GoTestdeep

/-- C8: the comparator terminates on every input, including cyclic values
(for every heap, visited set and pair of values some fuel suffices); when
both operands are valid, of the same type, and their identity pair is
already in the per-call visited set, it returns 0 treating the values as
equal; and before descending into a not-yet-visited pointer pair it records
the pair of identities in the visited set passed to the recursive call. -/
theorem claim_C8 :
    (∀ (h : Heap) (v : VisitedL) (a b : RValue), ∃ n, (cmp n h v a b).isSome)
    ∧ (∀ (fuel : Nat) (h : Heap) (v v1 : VisitedL) (a b : RValue),
        a.isValid = true → b.isValid = true → a.sameType b = true →
        visitedRecord v a b = (true, v1) →
        cmp (fuel+1) h v a b = some (0, v1))
    ∧ (∀ (n : Nat) (h : Heap) (v : VisitedL) (tya tyb : String) (pa pb : Nat),
        (RValue.ptr tya pa).sameType (RValue.ptr tyb pb) = true →
        (pa, pb) ∉ v → pa ≠ pb → pa ≠ 0 → pb ≠ 0 →
        cmp (n+1) h v (RValue.ptr tya pa) (RValue.ptr tyb pb)
          = cmp n h ((pa, pb) :: v) (h.lookupPtr pa) (h.lookupPtr pb)) := by
  refine ⟨?_, ?_, ?_⟩
  · intro h v a b
    exact cmp_progress h (cmpMeasure h v a b) (sizeOf a) a le_rfl b v le_rfl
  · intro fuel h v v1 a b hva hvb hst hrec
    rw [cmp_succ]
    simp [cmpBody, hva, hvb, hst, hrec]
  · intro n h v tya tyb pa pb hst hvv h1 h2 h3
    rw [cmp_succ]
    simp [cmpBody, RValue.isValid, hst, visitedRecord, recordIdent, hvv, h1, h2, h3]

theorem claim_C8_witness :
    cmp (0+1) ⟨[], []⟩ [(5, 6)] (RValue.ptr "p" 5) (RValue.ptr "p" 6) = some (0, [(5, 6)])
    ∧ cmp (0+1) ⟨[], [(1, RValue.bool "bool" true), (2, RValue.bool "bool" true)]⟩ []
        (RValue.ptr "p" 1) (RValue.ptr "p" 2)
      = cmp 0 ⟨[], [(1, RValue.bool "bool" true), (2, RValue.bool "bool" true)]⟩ [(1, 2)]
          (Heap.lookupPtr ⟨[], [(1, RValue.bool "bool" true), (2, RValue.bool "bool" true)]⟩ 1)
          (Heap.lookupPtr ⟨[], [(1, RValue.bool "bool" true), (2, RValue.bool "bool" true)]⟩ 2) :=
  ⟨claim_C8.2.1 0 ⟨[], []⟩ [(5, 6)] [(5, 6)] (RValue.ptr "p" 5) (RValue.ptr "p" 6)
     (by decide) (by decide) (by decide) (by decide),
   claim_C8.2.2 0 ⟨[], [(1, RValue.bool "bool" true), (2, RValue.bool "bool" true)]⟩ []
     "p" "p" 1 2 (by decide) (by decide) (by decide) (by decide) (by decide)⟩

/-- C1 (amended): over NaN-free values and heaps the comparator is
reflexively zero and antisymmetric (swapping the operands negates the
result, with the visited pairs swapped accordingly); it is transitive on
scalar values; and sorting `[NaN, 1.0, -1.0]` ascending places NaN first
(NaN sorts as the minimum).  Each restriction is forced by the
counterexample theorem: reflexivity over arbitrary values fails on NaN, and
transitivity over composite values fails twice over — on NaN-free slices
through the persistence of the visited guard across sibling comparisons,
and on NaN-free arrays through the non-uniqueness of rendered type names —
so the scalar kinds, which are compared pure-by-value, are where
transitivity survives. -/
theorem claim_C1_amended :
    (∀ (h : Heap), h.nanFree = true → ∀ (n : Nat) (v : VisitedL) (a : RValue),
      a.nanFree = true → ∀ (r : Int) (v' : VisitedL),
        cmp n h v a a = some (r, v') → r = 0)
    ∧ (∀ (h : Heap), h.nanFree = true → ∀ (n : Nat) (v : VisitedL) (a b : RValue),
      a.nanFree = true → b.nanFree = true →
        cmp n h (v.map Prod.swap) b a
          = (cmp n h v a b).map (fun rv => (-rv.1, rv.2.map Prod.swap)))
    ∧ (∀ (n : Nat) (h : Heap) (a b c : RValue),
        a.isScalar = true → b.isScalar = true → c.isScalar = true →
        a.nanFree = true → b.nanFree = true → c.nanFree = true →
        cmpLess (n+1) h a b = true → cmpLess (n+1) h b c = true →
        cmpLess (n+1) h a c = true)
    ∧ sortValues (cmpLess 1 ⟨[], []⟩)
        [RValue.float "float64" GoFloat.nan, RValue.float "float64" (GoFloat.val 1),
         RValue.float "float64" (GoFloat.val (-1))]
      = [RValue.float "float64" GoFloat.nan, RValue.float "float64" (GoFloat.val (-1)),
         RValue.float "float64" (GoFloat.val 1)] := by
  refine ⟨?_, ?_, ?_, ?_⟩
  · intro h hh n v a ha r v' hc
    exact ((cmp_refl_aux h hh n).1) v a ha r v' hc
  · intro h hh n v a b ha hb
    exact ((cmp_antisym_aux h hh n).1) v a b ha hb
  · intro n h a b c hsa hsb hsc ha hb hc hab hbc
    unfold cmpLess at hab hbc ⊢
    rw [cmp_scalar n h [] a b hsa hsb] at hab
    rw [cmp_scalar n h [] b c hsb hsc] at hbc
    rw [cmp_scalar n h [] a c hsa hsc]
    simp at hab hbc ⊢
    exact scalarCmp_trans a b c ha hb hc hab hbc
  · rfl

theorem claim_C1_amended_witness :
    ((0 : Int) = 0)
    ∧ (cmp 1 ⟨[], []⟩ [] (RValue.int "int" 4) (RValue.int "int" 3)
        = (cmp 1 ⟨[], []⟩ [] (RValue.int "int" 3) (RValue.int "int" 4)).map
            (fun rv => (-rv.1, rv.2.map Prod.swap)))
    ∧ cmpLess (0+1) ⟨[], []⟩ (RValue.int "int" 1) (RValue.int "int" 3) = true :=
  ⟨claim_C1_amended.1 ⟨[], []⟩ (by decide) 1 [] (RValue.int "int" 3)
     (by simp [RValue.nanFree]) 0 [] (by decide),
   claim_C1_amended.2.1 ⟨[], []⟩ (by decide) 1 [] (RValue.int "int" 3) (RValue.int "int" 4)
     (by simp [RValue.nanFree]) (by simp [RValue.nanFree]),
   claim_C1_amended.2.2.1 0 ⟨[], []⟩ (RValue.int "int" 1) (RValue.int "int" 2)
     (RValue.int "int" 3) (by decide) (by decide) (by decide) (by simp [RValue.nanFree])
     (by simp [RValue.nanFree]) (by simp [RValue.nanFree]) (by decide) (by decide)⟩

end GoTestdeep


namespace GoTestdeep

theorem shallow_ok_fields (v : RValue) (op : tdShallow) (h : Shallow v = .ok op) :
    op.expectedKind = v.kind ∧ op.expectedPointer = identityPointer v := by
  cases v <;> simp [Shallow, RValue.kind] at h <;>
    simp [← h, identityPointer, RValue.kind, stringPointer, RValue.goPointer]

theorem tdShallow_match_none (s : tdShallow) (be : Bool) (got : RValue) :
    s.Match be got = none ↔
      (got.kind = s.expectedKind ∧
        (if s.expectedKind = RKind.string then stringPointer got else got.goPointer)
          = s.expectedPointer) := by
  unfold tdShallow.Match
  by_cases hk : got.kind = s.expectedKind
  · by_cases hp : (if s.expectedKind = RKind.string then stringPointer got else got.goPointer)
        = s.expectedPointer
    · simp [hk, hp]
    · simp [hk, hp]; cases be <;> simp
  · simp [hk]; cases be <;> simp

theorem identityPointer_eq (got : RValue) (k : RKind) (hk : got.kind = k) :
    (if k = RKind.string then stringPointer got else got.goPointer) = identityPointer got := by
  subst hk
  by_cases hs : got.kind = RKind.string <;> simp [hs, identityPointer]

/-- C3: for a `Shallow` operator built from a supported value, `Match`
succeeds iff the observed kind equals the expected kind and the observed
identity pointer equals the expected one; strings compare by backing
storage: a sub-view with the same data pointer matches whatever its
contents, an equal-content string at a different data pointer does not. -/
theorem claim_C3 (v : RValue) (op : tdShallow) (h : Shallow v = .ok op) :
    (∀ (be : Bool) (got : RValue),
      op.Match be got = none ↔ (got.kind = v.kind ∧ identityPointer got = identityPointer v))
    ∧ (∀ (be : Bool) (ty ty' s s' : String) (d : Nat),
        v = .str ty d s → op.Match be (.str ty' d s') = none)
    ∧ (∀ (be : Bool) (ty ty' s : String) (d d' : Nat),
        v = .str ty d s → d' ≠ d → op.Match be (.str ty' d' s) ≠ none) := by
  obtain ⟨hek, hep⟩ := shallow_ok_fields v op h
  have base : ∀ (be : Bool) (got : RValue),
      op.Match be got = none ↔ (got.kind = v.kind ∧ identityPointer got = identityPointer v) := by
    intro be got
    rw [tdShallow_match_none]
    constructor
    · rintro ⟨h1, h2⟩
      rw [hek] at h1
      refine ⟨h1, ?_⟩
      rw [← identityPointer_eq got v.kind h1, ← hek]
      rw [h2, hep]
    · rintro ⟨h1, h2⟩
      refine ⟨by rw [hek, h1], ?_⟩
      rw [hek, identityPointer_eq got v.kind h1, h2, hep]
  refine ⟨base, ?_, ?_⟩
  · intro be ty ty' s s' d hv
    rw [base]
    subst hv
    simp [RValue.kind, identityPointer, stringPointer]
  · intro be ty ty' s d d' hv hd
    rw [Ne, base]
    subst hv
    simp [RValue.kind, identityPointer, stringPointer, hd]

end GoTestdeep


namespace GoTestdeep

/-- C6: constructors validate eagerly, at construction time: `Shallow`
errors exactly on the kinds outside channel, func, map, pointer, slice,
unsafe pointer and string; `Tag` errors exactly on an invalid tag name;
`Delay` errors exactly on a nil constructor function. -/
theorem claim_C6 :
    (∀ v : RValue, (∃ msg, Shallow v = .error msg) ↔ v.kind ∉ shallowKinds)
    ∧ (∀ (t : String) (ev : TagArg), (∃ msg, Tag t ev = .error msg) ↔ tagValid t = false)
    ∧ (∀ d, (∃ msg, Delay d = .error msg) ↔ d = none) := by
  refine ⟨?_, ?_, ?_⟩
  · intro v
    cases v <;> simp [Shallow, RValue.kind, shallowKinds]
  · intro t ev
    by_cases h : tagValid t <;> simp [Tag, h]
  · intro d
    cases d <;> simp [Delay]

/-- C9: a constructed `Tag(name, expectedValue)` delegates `Match`
unchanged to matching the observed value against `expectedValue` (two tags
with different names match identically, so the name has no effect on match
semantics), and `TypeBehind` returns the wrapped operator s `TypeBehind`
when the expected value is an operator, the value s type otherwise, and
none for an untyped nil. -/
theorem claim_C9 (name : String) (ev : TagArg) (t : tdTag) (h : Tag name ev = .ok t) :
    (∀ (dve : Bool → RValue → TagArg → Option MatchErr) (be : Bool) (got : RValue),
        t.Match dve be got = dve be got ev)
    ∧ (∀ (name2 : String) (t2 : tdTag), Tag name2 ev = .ok t2 →
        ∀ (dve : Bool → RValue → TagArg → Option MatchErr) (be : Bool) (got : RValue),
          t2.Match dve be got = t.Match dve be got)
    ∧ (∀ o, ev = .op o → t.TypeBehind = o.typeBehind)
    ∧ (∀ w, ev = .val w → w.isValid → t.TypeBehind = some (w.kind, w.tyName))
    ∧ (ev = .val .invalid → t.TypeBehind = none) := by
  have ht : t.expectedValue = ev := by
    unfold Tag at h
    by_cases hv : tagValid name <;> simp [hv] at h
    simp [← h]
  refine ⟨?_, ?_, ?_, ?_, ?_⟩
  · intro dve be got
    simp [tdTag.Match, ht]
  · intro name2 t2 h2 dve be got
    have ht2 : t2.expectedValue = ev := by
      unfold Tag at h2
      by_cases hv : tagValid name2 <;> simp [hv] at h2
      simp [← h2]
    simp [tdTag.Match, ht, ht2]
  · intro o ho
    simp [tdTag.TypeBehind, ht, ho]
  · intro w hw hval
    simp [tdTag.TypeBehind, ht, hw, hval]
  · intro hw
    simp [tdTag.TypeBehind, ht, hw, RValue.isValid]

theorem tdDelay_run_built (f : Unit → OpIface) (op : OpIface) (cs : List DelayCall) :
    (tdDelay.mk f true (some op)).run cs = (cs.map (forwardTo op), ⟨f, true, some op⟩, 0) := by
  induction cs with
  | nil => rfl
  | cons c cs ih =>
    cases c <;> simp [tdDelay.run, tdDelay.step, tdDelay.getOperator, forwardTo, ih]

/-- C2: for a `Delay` wrapper, over any nonempty sequence of protocol calls
(`Match`, `String`, `TypeBehind`, `HandleInvalid`) the delayed constructor
is invoked exactly once, and every call forwards to the single operator it
built. -/
theorem claim_C2 (f : Unit → OpIface) (d : tdDelay) (h : Delay (some f) = .ok d)
    (calls : List DelayCall) (hne : calls ≠ []) :
    (d.run calls).2.2 = 1
    ∧ (d.run calls).1 = calls.map (forwardTo (f ()))
    ∧ (d.run calls).2.1.operator = some (f ()) := by
  have hd : d = ⟨f, false, none⟩ := by
    simp [Delay] at h
    exact h.symm
  subst hd
  cases calls with
  | nil => exact absurd rfl hne
  | cons c cs =>
    cases c <;>
      simp [tdDelay.run, tdDelay.step, tdDelay.getOperator, forwardTo, tdDelay_run_built]

end GoTestdeep


namespace GoTestdeep

theorem Error_Append_eq (core : ErrCore) (origin next : Option Error) (pfx : String) :
    (Error.mk core origin next).Append pfx
      = appendAssemble core pfx
          (origin.map (fun o => o.Append (pfx ++ "\t")))
          (next.map (fun nx => (nx.Location, nx.Append pfx))) := by
  cases origin <;> cases next <;> simp [Error.Append]

/-- C5: `Error.Append` renders a normal node in the fixed order: message
(with the path substituted), then the got/expected values or the custom
summary, then the origin chain, then the originating-operator location,
then the next sibling. -/
theorem claim_C5 (core : ErrCore) (origin next : Option Error) (pfx : String)
    (hs : core.sentinel = .normal) :
    (Error.mk core origin next).Append pfx
      = renderMessagePart core pfx ++ renderValuesPart core pfx
        ++ renderOriginPart origin pfx ++ renderLocationPart core next pfx
        ++ renderNextPart next pfx := by
  rw [Error_Append_eq]
  cases origin <;> cases next <;>
    simp [appendAssemble, hs, renderMessagePart, renderValuesPart, renderOriginPart,
      renderLocationPart, renderNextPart]

/-- C10: `Error.Append` prints the under-operator location line exactly
when the node s Location is initialized, not behind a Cmp function, and the
next sibling (if any) carries a different Location; in every other case the
line is suppressed. -/
theorem claim_C10 (core : ErrCore) (origin next : Option Error) (pfx : String)
    (hs : core.sentinel = .normal) :
    ((core.Location.initialized = true ∧ core.Location.behindCmp = false ∧
        (match next with
         | none => True
         | some nx => nx.Location ≠ core.Location)) →
      (Error.mk core origin next).Append pfx
        = renderMessagePart core pfx ++ renderValuesPart core pfx
          ++ renderOriginPart origin pfx
          ++ ("\n" ++ pfx ++ "[under TestDeep operator " ++ core.Location.render ++ "]")
          ++ renderNextPart next pfx)
    ∧ (¬(core.Location.initialized = true ∧ core.Location.behindCmp = false ∧
        (match next with
         | none => True
         | some nx => nx.Location ≠ core.Location)) →
      (Error.mk core origin next).Append pfx
        = renderMessagePart core pfx ++ renderValuesPart core pfx
          ++ renderOriginPart origin pfx ++ renderNextPart next pfx) := by
  constructor
  · intro hc
    obtain ⟨h1, h2, h3⟩ := hc
    rw [Error_Append_eq]
    cases next with
    | none =>
      cases origin <;>
        simp [appendAssemble, hs, h1, h2, renderMessagePart, renderValuesPart,
          renderOriginPart, renderNextPart]
    | some nx =>
      have h3' : (nx.Location != core.Location) = true := by simpa using h3
      cases origin <;>
        simp [appendAssemble, hs, h1, h2, h3', renderMessagePart, renderValuesPart,
          renderOriginPart, renderNextPart]
  · intro hc
    rw [Error_Append_eq]
    cases next with
    | none =>
      have hcond : ¬(core.Location.initialized = true ∧ core.Location.behindCmp = false) := by
        intro hp
        exact hc ⟨hp.1, hp.2, trivial⟩
      cases origin <;>
        simp [appendAssemble, hs, hcond, renderMessagePart, renderValuesPart,
          renderOriginPart, renderNextPart]
    | some nx =>
      have hcond : ¬((core.Location.initialized = true ∧ core.Location.behindCmp = false)
          ∧ ¬nx.Location = core.Location) := by
        intro hp
        exact hc ⟨hp.1.1, hp.1.2, hp.2⟩
      cases origin <;>
        simp [appendAssemble, hs, hcond, renderMessagePart, renderValuesPart,
          renderOriginPart, renderNextPart]

end GoTestdeep


namespace GoTestdeep

theorem claim_C3_witness :
    (tdShallow.mk RKind.string 3 "ab").Match false (RValue.str "string" 3 "a") = none
    ∧ (tdShallow.mk RKind.string 3 "ab").Match false (RValue.str "string" 4 "ab") ≠ none :=
  ⟨(claim_C3 (RValue.str "string" 3 "ab") ⟨RKind.string, 3, "ab"⟩ rfl).2.1 false
     "string" "string" "ab" "a" 3 rfl,
   (claim_C3 (RValue.str "string" 3 "ab") ⟨RKind.string, 3, "ab"⟩ rfl).2.2 false
     "string" "string" "ab" 3 4 rfl (by decide)⟩

theorem claim_C9_witness :
    (tdTag.mk "x" (.val (RValue.int "int" 5))).Match (fun _ _ _ => none) false RValue.invalid
      = none
    ∧ (tdTag.mk "x" (.val (RValue.int "int" 5))).TypeBehind
      = some ((RValue.int "int" 5).kind, (RValue.int "int" 5).tyName) :=
  ⟨(claim_C9 "x" (.val (RValue.int "int" 5)) ⟨"x", .val (RValue.int "int" 5)⟩ rfl).1
     (fun _ _ _ => none) false RValue.invalid,
   (claim_C9 "x" (.val (RValue.int "int" 5)) ⟨"x", .val (RValue.int "int" 5)⟩ rfl).2.2.2.1
     (RValue.int "int" 5) rfl (by decide)⟩

theorem claim_C2_witness :
    ((tdDelay.mk (fun _ => opZero) false none).run [DelayCall.describeCall]).2.2 = 1
    ∧ ((tdDelay.mk (fun _ => opZero) false none).run [DelayCall.describeCall]).1
        = [DelayCall.describeCall].map (forwardTo opZero)
    ∧ ((tdDelay.mk (fun _ => opZero) false none).run [DelayCall.describeCall]).2.1.operator
        = some opZero :=
  claim_C2 (fun _ => opZero) ⟨fun _ => opZero, false, none⟩ rfl
    [DelayCall.describeCall] (by simp)

theorem claim_C4_witness :
    cmp (0+1) ⟨[], []⟩ [] (RValue.map "map[int]int" 1 2) (RValue.map "map[int]int" 2 3)
      = some (-1, [(1, 2)]) :=
  claim_C4 0 ⟨[], []⟩ [] "map[int]int" 1 2 2 3 (by decide)

theorem claim_C7_witness :
    cmp (1+1) ⟨[(1, [RValue.int "int" 5]), (2, [RValue.int "int" 5, RValue.int "int" 7])], []⟩
        [] (RValue.slice "[]int" 1 1) (RValue.slice "[]int" 2 2) = some (-1, [(1, 2)]) :=
  (claim_C7 1 ⟨[(1, [RValue.int "int" 5]), (2, [RValue.int "int" 5, RValue.int "int" 7])], []⟩
      [] "[]int" 1 1 2 2 (by decide)).2.2 [(1, 2)] (by decide) (by decide)

theorem claim_C5_witness :
    (Error.mk ⟨.normal, "DATA", "msg", "1", "2", none, ⟨false, false, ""⟩⟩ none none).Append ""
      = renderMessagePart ⟨.normal, "DATA", "msg", "1", "2", none, ⟨false, false, ""⟩⟩ ""
        ++ renderValuesPart ⟨.normal, "DATA", "msg", "1", "2", none, ⟨false, false, ""⟩⟩ ""
        ++ renderOriginPart none ""
        ++ renderLocationPart ⟨.normal, "DATA", "msg", "1", "2", none, ⟨false, false, ""⟩⟩
            none ""
        ++ renderNextPart none "" :=
  claim_C5 ⟨.normal, "DATA", "msg", "1", "2", none, ⟨false, false, ""⟩⟩ none none "" rfl

theorem claim_C10_witness :
    (Error.mk ⟨.normal, "DATA", "msg", "1", "2", none, ⟨true, false, "Eq"⟩⟩ none none).Append ""
      = renderMessagePart ⟨.normal, "DATA", "msg", "1", "2", none, ⟨true, false, "Eq"⟩⟩ ""
        ++ renderValuesPart ⟨.normal, "DATA", "msg", "1", "2", none, ⟨true, false, "Eq"⟩⟩ ""
        ++ renderOriginPart none ""
        ++ ("\n" ++ "" ++ "[under TestDeep operator " ++ "Eq" ++ "]")
        ++ renderNextPart none "" :=
  (claim_C10 ⟨.normal, "DATA", "msg", "1", "2", none, ⟨true, false, "Eq"⟩⟩ none none "" rfl).1
    ⟨rfl, rfl, trivial⟩

end GoTestdeep
